/-
Verification of the venue-crawler extraction and normalization pipeline
(src/src/main.js) against its natural-language specification.

The JavaScript source works on strings; here every string is modelled as a
list of characters (JStr).  Each regular-expression operation of the source
is translated into an explicit scanning function that implements exactly the
matching semantics of that one pattern (leftmost match, greedy quantifiers
with the backtracking the pattern needs, case-insensitive comparison where
the pattern carries the i flag).  Each definition carries a comment naming
the source construct it embeds.
-/
import Mathlib

namespace VenueCrawler

/-- Strings of the JavaScript source, modelled as lists of characters. -/
abbrev JStr := List Char

/-- Conversion from a Lean string literal to the model. -/
def js (s : String) : JStr := s.data

/-- The whitespace class of JavaScript regular expressions and of
String.prototype.trim (the common members; the exotic Unicode space
code points behave the same way and are omitted). -/
def isJsWs (c : Char) : Bool :=
  c = ' ' || c = '\t' || c = '\n' || c = '\r' || c = '\x0b' || c = '\x0c' ||
  c = '\u00A0' || c = '\u2028' || c = '\u2029' || c = '\uFEFF'

/-- Word characters, the JavaScript regex class backslash-w,
used for word boundaries. -/
def isWordChar (c : Char) : Bool :=
  ('a' ≤ c && c ≤ 'z') || ('A' ≤ c && c ≤ 'Z') || ('0' ≤ c && c ≤ '9') || c = '_'

/-- ASCII letters, the class A-Za-z. -/
def isAlphaChar (c : Char) : Bool :=
  ('a' ≤ c && c ≤ 'z') || ('A' ≤ c && c ≤ 'Z')

/-- ASCII digits. -/
def isDigitChar (c : Char) : Bool := '0' ≤ c && c ≤ '9'

/-- Case folding used for the i flag of the source regexes. -/
def lower (l : JStr) : JStr := l.map Char.toLower

/-- JavaScript String.prototype.trim. -/
def jsTrim (l : JStr) : JStr :=
  ((l.dropWhile isJsWs).reverse.dropWhile isJsWs).reverse

/-- Length of the maximal whitespace run at the front of the list. -/
def wsRun (l : JStr) : Nat := (l.takeWhile isJsWs).length

/-- Length of the maximal whitespace run that ends just before index j. -/
def wsRunBefore (l : JStr) (j : Nat) : Nat :=
  ((l.take j).reverse.takeWhile isJsWs).length

/-- Case-sensitive test that pat occurs at the front of l. -/
def startsWith (pat l : JStr) : Bool := l.take pat.length = pat

/-- Case-insensitive test that pat occurs at the front of l
(pat is given in lower case). -/
def startsWithCI (pat l : JStr) : Bool := lower (l.take pat.length) = pat

/-- Case-sensitive substring test (String.prototype.includes). -/
def containsSub (pat l : JStr) : Bool := l.tails.any (startsWith pat)

/-- Case-insensitive substring test, for substring regexes with the i flag. -/
def containsSubCI (pat l : JStr) : Bool := l.tails.any (startsWithCI pat)

/-- The truthiness test of JavaScript on an optional string:
null and the empty string are falsy. -/
def jsTruthy : Option JStr → Bool
  | none => false
  | some s => s ≠ []

/-- The JavaScript expression a or-else b on strings
(b is taken when a is null or empty). -/
def jsOr (a : Option JStr) (b : Option JStr) : Option JStr :=
  if jsTruthy a then a else b

/-- The JavaScript expression a or-else b with a plain string fallback. -/
def jsOrS (a : Option JStr) (b : JStr) : JStr :=
  match a with
  | some s => if s = [] then b else s
  | none => b

/-- Value of an optional string (empty for null), for use after a
truthiness check. -/
def optVal : Option JStr → JStr
  | some s => s
  | none => []

/-- Generic splitter: m tries to match a delimiter at the front of its
argument and returns the length of the match (at least 1).  Mirrors
String.prototype.split with a regex: scan left to right, at each position
try the delimiter pattern, the matched span separates two fields. -/
def splitGo (m : JStr → Option Nat) : Nat → JStr → JStr → List JStr
  | 0, acc, l => [acc.reverse ++ l]
  | _ + 1, acc, [] => [acc.reverse]
  | fuel + 1, acc, c :: cs =>
    match m (c :: cs) with
    | some n => acc.reverse :: splitGo m fuel [] (cs.drop (n - 1))
    | none => splitGo m fuel (c :: acc) cs

/-- Split l on the delimiter matcher m.  The fuel counts recursion
steps; every step consumes at least one character (matches have length
at least one), so one more than the length always suffices and the
zero-fuel fallback is never reached. -/
def jsSplit (m : JStr → Option Nat) (l : JStr) : List JStr :=
  splitGo m (l.length + 1) [] l

/-- Leftmost match: scan positions left to right, return start index and
match length of the first position where m succeeds. -/
def scanGo (m : JStr → Option Nat) : Nat → JStr → Option (Nat × Nat)
  | i, [] => match m [] with
    | some n => some (i, n)
    | none => none
  | i, c :: cs =>
    match m (c :: cs) with
    | some n => some (i, n)
    | none => scanGo m (i + 1) cs

/-- Leftmost match of m in l. -/
def scanFirst (m : JStr → Option Nat) (l : JStr) : Option (Nat × Nat) :=
  scanGo m 0 l

/-- String.prototype.replace with a non-global regex and empty replacement:
delete the leftmost match. -/
def replaceFirst (m : JStr → Option Nat) (l : JStr) : JStr :=
  match scanFirst m l with
  | some (i, n) => l.take i ++ l.drop (i + n)
  | none => l

/-- String.prototype.replace with a global regex and empty replacement:
delete every (non-overlapping, left to right) match; every match of the
matchers used here has length at least 1. -/
def replaceAllGo (m : JStr → Option Nat) : Nat → JStr → JStr
  | 0, l => l
  | _ + 1, [] => []
  | fuel + 1, c :: cs =>
    match m (c :: cs) with
    | some n => replaceAllGo m fuel (cs.drop (n - 1))
    | none => c :: replaceAllGo m fuel cs

/-- Delete every match of m in l (fuel as for the splitter). -/
def replaceAll (m : JStr → Option Nat) (l : JStr) : JStr :=
  replaceAllGo m (l.length + 1) l

/-- Worker for the whitespace-run collapse: the flag records whether the
previous character was whitespace already replaced by the single
space. -/
def collapseWsGo (inRun : Bool) : JStr → JStr
  | [] => []
  | c :: cs =>
    if isJsWs c then
      if inRun then collapseWsGo true cs
      else ' ' :: collapseWsGo true cs
    else c :: collapseWsGo false cs

/-- Collapse of every whitespace run into a single space, the source
replace of the class whitespace-or-nbsp (one or more) by one space. -/
def collapseWs (l : JStr) : JStr := collapseWsGo false l

/-- Try a literal delimiter (case-sensitive) at the front. -/
def matchLit (pat : JStr) (s : JStr) : Option Nat :=
  if startsWith pat s then some pat.length else none

/-- Try a literal delimiter, case-insensitively (pat in lower case). -/
def matchLitCI (pat : JStr) (s : JStr) : Option Nat :=
  if startsWithCI pat s then some pat.length else none

/-- First matcher of the list that succeeds — the regex alternation bar,
tried left to right at one position. -/
def firstSome (ms : List (JStr → Option Nat)) (s : JStr) : Option Nat :=
  match ms with
  | [] => none
  | m :: rest =>
    match m s with
    | some n => some n
    | none => firstSome rest s

/-- The pattern whitespace+ keyword whitespace+ (keyword compared
case-insensitively); greedy whitespace runs.  Covers the source
delimiters of shape backslash-s-plus word backslash-s-plus. -/
def matchWsKw (kw : JStr) (s : JStr) : Option Nat :=
  let r := wsRun s
  if r = 0 then none
  else if startsWithCI kw (s.drop r) then
    let r2 := wsRun (s.drop (r + kw.length))
    if r2 = 0 then none else some (r + kw.length + r2)
  else none

/-- The delimiter whitespace+ f e a t optional-dot whitespace+ of the
splitter regex: after the word feat a dot is taken greedily when a
whitespace run follows it, else the whitespace run must follow directly. -/
def matchWsFeat (s : JStr) : Option Nat :=
  let r := wsRun s
  if r = 0 then none
  else if startsWithCI (js "feat") (s.drop r) then
    let t := s.drop (r + 4)
    match t with
    | '.' :: t2 =>
      let r2 := wsRun t2
      if r2 ≠ 0 then some (r + 4 + 1 + r2)
      else none
    | _ =>
      let r2 := wsRun t
      if r2 ≠ 0 then some (r + 4 + r2) else none
  else none

/-- The pattern whitespace* c whitespace* for a single delimiter
character c (the slash and plus delimiters of the splitter regex). -/
def matchWsCh (c : Char) (s : JStr) : Option Nat :=
  let r := wsRun s
  match s.drop r with
  | d :: rest => if d = c then some (r + 1 + wsRun rest) else none
  | [] => none

/-- Delimiter alternation of the splitParts regex in the record
normalizer (main.js line 1334): comma, with, feat optional-dot,
featuring, ampersand, and, slash, plus — the latter two with optional
surrounding whitespace, the others requiring it. -/
def splitPartsM : JStr → Option Nat :=
  firstSome
    [ matchLit (js ","), matchWsKw (js "with"), matchWsFeat,
      matchWsKw (js "featuring"), matchWsKw (js "&"), matchWsKw (js "and"),
      matchWsCh '/', matchWsCh '+' ]

/-- Matcher for the pattern whitespace* at-sign whitespace* digit
rest-of-line, used by normalizeTitle (main.js line 1333); the dot-star
runs to the end of the string (titles are single lines, so the
no-newline restriction of the dot is vacuous). -/
def atDigitRestM (s : JStr) : Option Nat :=
  let r := wsRun s
  match s.drop r with
  | '@' :: t =>
    let r2 := wsRun t
    match t.drop r2 with
    | d :: _ => if isDigitChar d then some s.length else none
    | [] => none
  | _ => none

/-- Characters the dot of a JavaScript regex does not match. -/
def isLineTerm (c : Char) : Bool :=
  c = '\n' || c = '\r' || c = '\u2028' || c = '\u2029'

/-- Scan for the closing parenthesis of a lazy paren group: number of
characters up to and including the first close paren, failing on a line
terminator (the dot of the source pattern does not cross lines). -/
def parenBodyLen : JStr → Option Nat
  | [] => none
  | c :: cs =>
    if c = ')' then some 1
    else if isLineTerm c then none
    else match parenBodyLen cs with
      | some n => some (n + 1)
      | none => none

/-- Matcher for whitespace* ( lazy-body ) whitespace*, the global
parenthetical-stripping pattern of normalizeTitle. -/
def wsParenM (s : JStr) : Option Nat :=
  let r := wsRun s
  match s.drop r with
  | '(' :: t =>
    match parenBodyLen t with
    | some n => some (r + 1 + n + wsRun (t.drop n))
    | none => none
  | _ => none

/-- Matcher for ( lazy-body ) without surrounding whitespace, the
parenthetical-stripping pattern of cleanArtist (main.js line 1321). -/
def parenM (s : JStr) : Option Nat :=
  match s with
  | '(' :: t =>
    match parenBodyLen t with
    | some n => some (1 + n)
    | none => none
  | _ => none

/-- normalizeTitle of the record normalizer (main.js line 1333):
truncate at the first at-sign-then-digit, delete every parenthetical
with surrounding whitespace, trim. -/
def normalizeTitle (l : JStr) : JStr :=
  jsTrim (replaceAll wsParenM (replaceFirst atDigitRestM l))

/-- splitParts of the record normalizer (main.js line 1334): normalize
the title, split on the delimiter alternation, trim every field, drop
empty fields. -/
def splitParts (l : JStr) : List JStr :=
  ((jsSplit splitPartsM (normalizeTitle l)).map jsTrim).filter (fun p => p ≠ [])

/-- Case-insensitive suffix test (pat in lower case). -/
def endsWithCI (pat s : JStr) : Bool :=
  pat.length ≤ s.length && lower (s.drop (s.length - pat.length)) = pat

/-- Step 1 of cleanArtist (main.js line 1317), the anchored pattern
non-colon+ whitespace+ (Presents or Present or Pres.) colon whitespace*:
the keyword must sit directly before the first colon of the string with
at least one whitespace character before it and at least one further
character before that; on a match everything through the colon and the
following whitespace run is removed. -/
def stripPresents (l : JStr) : JStr :=
  match l.findIdx? (fun c => c = ':') with
  | none => l
  | some i =>
    let pre := l.take i
    let kwLen :=
      if endsWithCI (js "presents") pre then some 8
      else if endsWithCI (js "present") pre then some 7
      else if endsWithCI (js "pres.") pre then some 5
      else none
    match kwLen with
    | none => l
    | some k =>
      if k + 2 ≤ i then
        match (l.take (i - k)).getLast? with
        | some c =>
          if isJsWs c then l.drop (i + 1 + wsRun (l.drop (i + 1)))
          else l
        | none => l
      else l

/-- Tail of the at-sign time pattern of cleanArtist step 2
(main.js line 1318): optional colon-minutes, greedy whitespace run,
optional meridiem; no trailing boundary, so the whitespace run is kept
in the match even without a meridiem. -/
def atSignTail (u : JStr) (q : Nat) : Nat :=
  let q2 := q + (if startsWith (js ":") (u.drop q) &&
                    ((u.drop (q + 1)).take 2).length = 2 &&
                    ((u.drop (q + 1)).take 2).all isDigitChar
                 then 3 else 0)
  let w := wsRun (u.drop q2)
  let q3 := q2 + w
  if startsWithCI (js "am") (u.drop q3) || startsWithCI (js "pm") (u.drop q3)
  then q3 + 2 else q3

/-- Matcher for cleanArtist step 2: at-sign whitespace* one-or-two
digits optional-colon-minutes whitespace* optional-meridiem. -/
def atSignM (s : JStr) : Option Nat :=
  match s with
  | '@' :: t =>
    let r := wsRun t
    let u := t.drop r
    match u with
    | d1 :: rest =>
      if isDigitChar d1 then
        let dn := match rest with
          | d2 :: _ => if isDigitChar d2 then 2 else 1
          | [] => 1
        some (1 + r + atSignTail u dn)
      else none
    | [] => none
  | _ => none

/-- Step 2 of cleanArtist: delete the first at-sign time fragment. -/
def stripAtSign (l : JStr) : JStr := replaceFirst atSignM l

/-- Tail resolution for the word-bounded at-time pattern of cleanArtist
step 3 (main.js line 1319), whose trailing word boundary forces
backtracking over the whitespace-star and the optional meridiem: with a
meridiem the boundary must follow it; otherwise a nonempty whitespace
run is kept only when a word character follows it, and an empty run
needs a non-word character (or the end) next.  Returns the match end
within u, or none when every alternative fails. -/
def atWordTail (u : JStr) (q : Nat) : Option Nat :=
  let w := wsRun (u.drop q)
  let q2 := q + w
  if (startsWithCI (js "am") (u.drop q2) || startsWithCI (js "pm") (u.drop q2)) &&
     (match (u.drop (q2 + 2)).head? with
      | none => true
      | some c => !isWordChar c)
  then some (q2 + 2)
  else if w > 0 then
    match (u.drop q2).head? with
    | some c => if isWordChar c then some q2 else some q
    | none => some q
  else
    match (u.drop q).head? with
    | none => some q
    | some c => if isWordChar c then none else some q

/-- Digit group of cleanArtist step 3 with its backtracking: one or two
digits (greedy), optional colon-minutes (greedy), each alternative
retried against the boundary tail. -/
def atWordNum (u : JStr) (dn : Nat) : Option Nat :=
  let withColon :=
    if startsWith (js ":") (u.drop dn) &&
       ((u.drop (dn + 1)).take 2).length = 2 &&
       ((u.drop (dn + 1)).take 2).all isDigitChar
    then atWordTail u (dn + 3) else none
  match withColon with
  | some e => some e
  | none => atWordTail u dn

/-- Matcher (with the preceding character for the leading word boundary)
for cleanArtist step 3: boundary a t whitespace+ digits
optional-colon-minutes whitespace* optional-meridiem boundary. -/
def atWordM (prev : Option Char) (s : JStr) : Option Nat :=
  let bOk := match prev with
    | none => true
    | some c => !isWordChar c
  if bOk && startsWithCI (js "at") s then
    let t := s.drop 2
    let r := wsRun t
    if r = 0 then none
    else
      let u := t.drop r
      match u with
      | d1 :: rest =>
        if isDigitChar d1 then
          let two := match rest with
            | d2 :: _ => isDigitChar d2
            | [] => false
          let attempt2 := if two then atWordNum u 2 else none
          let res := match attempt2 with
            | some e => some e
            | none => atWordNum u 1
          match res with
          | some e => some (2 + r + e)
          | none => none
        else none
      | [] => none
  else none

/-- Position scanner that carries the previous character, for matchers
with a leading word boundary. -/
def scanBGo (m : Option Char → JStr → Option Nat) :
    Option Char → Nat → JStr → Option (Nat × Nat)
  | _, _, [] => none
  | prev, i, c :: cs =>
    match m prev (c :: cs) with
    | some n => some (i, n)
    | none => scanBGo m (some c) (i + 1) cs

/-- Replace (delete) the leftmost match of a boundary-aware matcher. -/
def replaceFirstB (m : Option Char → JStr → Option Nat) (l : JStr) : JStr :=
  match scanBGo m none 0 l with
  | some (i, n) => l.take i ++ l.drop (i + n)
  | none => l

/-- Step 3 of cleanArtist: delete the first word-bounded at-time. -/
def stripAtWord (l : JStr) : JStr := replaceFirstB atWordM l

/-- Dash characters of cleanArtist step 4 (hyphen, en dash, em dash). -/
def isDash3 (c : Char) : Bool := c = '-' || c = '–' || c = '—'

/-- Matcher for cleanArtist step 4 (main.js line 1320): a dash followed
(to the end of the string) by at least one character, none of which is a
comma or a parenthesis; anchored at the end, so the match runs to it. -/
def dashEndM (s : JStr) : Option Nat :=
  match s with
  | c :: cs =>
    if isDash3 c && cs ≠ [] &&
       cs.all (fun d => !(d = ',' || d = '(' || d = ')'))
    then some s.length else none
  | [] => none

/-- Step 4 of cleanArtist: delete the trailing dash segment. -/
def stripDashEnd (l : JStr) : JStr := replaceFirst dashEndM l

/-- Step 5 of cleanArtist: delete every parenthetical. -/
def stripParens (l : JStr) : JStr := replaceAll parenM l

/-- Search for a word-bounded occurrence of t o u r (case-insensitive)
before any colon; prev is the character just before the current
position.  Implements the colon-free stretch and the word boundaries of
cleanArtist step 6. -/
def findTour (prev : Char) (t : JStr) : Bool :=
  match t with
  | [] => false
  | c :: cs =>
    if c = ':' then false
    else if !isWordChar prev && startsWithCI (js "tour") t &&
            (match (t.drop 4).head? with
             | none => true
             | some d => !isWordChar d)
    then true
    else findTour c cs

/-- Matcher for cleanArtist step 6 (main.js line 1322): a colon whose
colon-free continuation contains a word-bounded Tour; the match runs to
the end of the string. -/
def tourM (s : JStr) : Option Nat :=
  match s with
  | ':' :: t => if findTour ':' t then some s.length else none
  | _ => none

/-- Step 6 of cleanArtist: drop a trailing colon-Tour segment. -/
def stripTour (l : JStr) : JStr := replaceFirst tourM l

/-- Step 7 of cleanArtist (main.js line 1323): curly quotes become a
straight apostrophe. -/
def mapCurly (l : JStr) : JStr :=
  l.map (fun c =>
    if c = '\u2018' || c = '\u2019' || c = '\u201C' || c = '\u201D'
    then Char.ofNat 39 else c)

/-- The character class comma-semicolon-colon-whitespace of cleanArtist
step 9 (main.js line 1325). -/
def isEdgePunct (c : Char) : Bool :=
  c = ',' || c = ';' || c = ':' || isJsWs c

/-- Step 9 of cleanArtist: strip that class from both ends. -/
def stripEdgePunct (l : JStr) : JStr :=
  ((l.dropWhile isEdgePunct).reverse.dropWhile isEdgePunct).reverse

/-- The full cleaning pipeline of cleanArtist (main.js lines 1317-1325),
steps applied in source order. -/
def cleanPipeline (l : JStr) : JStr :=
  stripEdgePunct (jsTrim (collapseWs (mapCurly (stripTour (stripParens
    (stripDashEnd (stripAtWord (stripAtSign (stripPresents l)))))))))

/-- cleanArtist (main.js lines 1314-1328): null on a falsy input, the
cleaned string, or null when cleaning leaves nothing. -/
def cleanArtistS (l : JStr) : Option JStr :=
  if l = [] then none
  else
    let v := cleanPipeline l
    if v = [] then none else some v

/-- The source expression cleanArtist(s) or-else s. -/
def cleanOr (s : JStr) : JStr :=
  match cleanArtistS s with
  | some v => v
  | none => s

/-- The or-else expression on plain Lean strings (for the role field). -/
def jsOrStr (a : Option String) (b : String) : String :=
  match a with
  | some s => if s = "" then b else s
  | none => b

/-- A raw event record as produced by a site parser (main.js comment at
lines 85-88): headliner may be null, supportingActs is an ordered list;
artistName and role are the alternative fields the normalizer also
checks (main.js lines 1356-1364). -/
structure RawEvent where
  headliner : Option JStr
  supportingActs : List JStr
  eventDateRaw : Option JStr
  sourceUrl : Option JStr
  artistName : Option JStr
  role : Option String
deriving DecidableEq, Repr

/-- A normalized output row; of the base metadata only the fields the
claims mention are kept (venue id, parser id, scrapedAt carry no
per-row logic). -/
structure NormRow where
  role : String
  artistName : JStr
  eventDateRaw : Option JStr
deriving DecidableEq, Repr

/-- The headliner field read as a string (empty for null), mirroring the
access item.headliner after its truthiness was established. -/
def headlinerStr (item : RawEvent) : JStr := optVal item.headliner

/-- Insertion into a JavaScript Set modelled as an ordered
duplicate-free list: append when absent. -/
def setAdd (acc : List JStr) (x : JStr) : List JStr :=
  if x ∈ acc then acc else acc ++ [x]

/-- Folding a sequence of Set.add calls. -/
def setAddAll (acc : List JStr) (xs : List JStr) : List JStr :=
  xs.foldl setAdd acc

/-- The record normalizer: the body of the flatMap over raw items in the
request handler (main.js lines 1305-1371).  A truthy headliner is split,
the first part cleaned (falling back to the raw part) becomes the
headliner row, the supporting acts and the remaining split parts are
cleaned and collected through a Set in insertion order and emitted as
support rows; otherwise a truthy artistName yields one row at the
declared role; otherwise no row. -/
def recordNormalize (item : RawEvent) : List NormRow :=
  if jsTruthy item.headliner then
    let headStr := headlinerStr item
    let headParts := splitParts headStr
    let mainHeadRaw := jsOrS headParts.head? headStr
    let mainHead := cleanOr mainHeadRaw
    let supports :=
      setAddAll
        (setAddAll [] ((item.supportingActs.filter (fun s => s ≠ [])).map cleanOr))
        ((headParts.drop 1).map cleanOr)
    let supRows := (supports.filter (fun n => n ≠ [])).map
      (fun n => NormRow.mk "support" n item.eventDateRaw)
    NormRow.mk "headliner" mainHead item.eventDateRaw :: supRows
  else if jsTruthy item.artistName then
    [NormRow.mk (jsOrStr item.role "unknown") (cleanOr (optVal item.artistName))
      item.eventDateRaw]
  else []

/-- The dedup key (main.js line 1373): lower-cased artistName with every
whitespace run collapsed to one space. -/
def dedupeKey (r : NormRow) : JStr := collapseWs (lower r.artistName)

/-- The dedup loop of the request handler (main.js lines 1374-1381) with
the seen set of keys made explicit. -/
def dedupeGo (seen : List JStr) : List NormRow → List NormRow
  | [] => []
  | r :: rs =>
    if dedupeKey r ∈ seen then dedupeGo seen rs
    else r :: dedupeGo (dedupeKey r :: seen) rs

/-- Deduplication of one batch of normalized rows. -/
def dedupeRows (rows : List NormRow) : List NormRow := dedupeGo [] rows

/-- Reference first-occurrence deduplication, written independently of
the Set-insertion fold of the normalizer: keep the head, drop its later
duplicates, recurse. -/
def dedupFirst {α : Type} [DecidableEq α] : List α → List α
  | [] => []
  | x :: xs => x :: (dedupFirst xs).filter (fun y => y ≠ x)

/-- Three-way or-else on optional strings: the first truthy operand,
else null (the source chains a or-else b or-else null). -/
def jsOr3 (a b : Option JStr) : Option JStr :=
  if jsTruthy a then a else if jsTruthy b then b else none

/-- The expression x or-else null: null unless truthy. -/
def jsOrNull (a : Option JStr) : Option JStr :=
  if jsTruthy a then a else none

/-- Scan for the first index at or after start satisfying pred, with
explicit fuel (the callers pass the string length, which bounds every
meaningful index). -/
def findFirstIdx (pred : Nat → Bool) : Nat → Nat → Option Nat
  | _, 0 => none
  | start, fuel + 1 =>
    if pred start then some start else findFirstIdx pred (start + 1) fuel

/-- The boilerplate stop patterns of the line collectors (main.js lines
189 and 615), matched as case-insensitive line starts. -/
def stopKws : List JStr :=
  [ js "tickets", js "event details", js "details", js "venue info",
    js "time:", js "doors", js "show:", js "ages", js "admission",
    js "onsale" ]

/-- A line matches the stop pattern. -/
def stopTest (l : JStr) : Bool := stopKws.any (fun k => startsWithCI k l)

/-- The boilerplate patterns rejected per split part (main.js lines 234
and 650) — the stop list without onsale. -/
def partStopKws : List JStr :=
  [ js "tickets", js "event details", js "details", js "venue info",
    js "time:", js "doors", js "show:", js "ages", js "admission" ]

/-- A part matches the per-part boilerplate pattern. -/
def partStopTest (l : JStr) : Bool :=
  partStopKws.any (fun k => startsWithCI k l)

/-- Matcher for the embedded clock-time pattern digit colon two-digits
whitespace* meridiem (main.js lines 235 and 651). -/
def clockM (s : JStr) : Option Nat :=
  match s with
  | d1 :: ':' :: d2 :: d3 :: rest =>
    if isDigitChar d1 && isDigitChar d2 && isDigitChar d3 then
      let r := wsRun rest
      if startsWithCI (js "am") (rest.drop r) || startsWithCI (js "pm") (rest.drop r)
      then some (4 + r + 2) else none
    else none
  | _ => none

/-- A string contains an embedded clock time. -/
def hasClockTime (l : JStr) : Bool := (scanFirst clockM l).isSome

/-- Whitespace-run delimiter (the split on backslash-s-plus used for
word counting). -/
def wsPlusM (s : JStr) : Option Nat :=
  let r := wsRun s
  if r = 0 then none else some r

/-- Word count in the JavaScript sense: number of fields of a split on
whitespace runs. -/
def wordCount (l : JStr) : Nat := (jsSplit wsPlusM l).length

/-- Strip of a leading en-dash or hyphen with following whitespace, the
anchored dash class pattern of the normalizeName helpers (main.js lines
215 and 642). -/
def stripLeadDash (l : JStr) : JStr :=
  match l with
  | c :: cs => if c = '–' || c = '-' then cs.dropWhile isJsWs else l
  | [] => []

/-- normalizeName of the Come and Take It detail parser (main.js line
215): collapse whitespace, strip a leading dash, trim. -/
def normalizeNameCATI (l : JStr) : JStr :=
  jsTrim (stripLeadDash (collapseWs l))

/-- normalizeName of the Continental Club detail parser (main.js line
642): strip a leading dash, collapse whitespace, trim. -/
def normalizeNameCC (l : JStr) : JStr :=
  jsTrim (collapseWs (stripLeadDash l))

/-- The split delimiters comma, space-ampersand-space, space-and-space,
plus of the detail-parser candidate splitter (main.js lines 227 and
648). -/
def catiSplitM : JStr → Option Nat :=
  firstSome
    [ matchLit (js ","), matchLit (js " & "), matchLitCI (js " and "),
      matchLit (js "+") ]

/-- Test for a leading w i t h followed by whitespace (main.js lines 222
and 647). -/
def hasLeadWith (l : JStr) : Bool :=
  startsWithCI (js "with") l && wsRun (l.drop 4) ≥ 1

/-- Strip of the leading w i t h and its whitespace run. -/
def stripLeadWith (l : JStr) : JStr :=
  if hasLeadWith l then l.drop (4 + wsRun (l.drop 4)) else l

/-- The full-line date pattern letters comma whitespace letters
whitespace one-or-two-digits (main.js line 179), anchored at both
ends. -/
def isDateLine (l : JStr) : Bool :=
  let a1 := l.takeWhile isAlphaChar
  let r1 := l.drop a1.length
  a1 ≠ [] &&
  (match r1 with
   | ',' :: t =>
     let w1 := wsRun t
     let a2 := (t.drop w1).takeWhile isAlphaChar
     let t2 := (t.drop w1).drop a2.length
     let w2 := wsRun t2
     let ds := t2.drop w2
     w1 ≥ 1 && a2 ≠ [] && w2 ≥ 1 && ds ≠ [] && ds.length ≤ 2 &&
       ds.all isDigitChar
   | _ => false)

/-- The marker phrase of the Come and Take It lineup block. -/
def catiMarker : JStr := js "come and take it productions presents"

/-- Matcher for the heading-cleanup pattern marker optional-colon
whitespace* (main.js line 246). -/
def catiMarkerM (s : JStr) : Option Nat :=
  if startsWithCI catiMarker s then
    let n := catiMarker.length
    let n2 := n + (if startsWith (js ":") (s.drop n) then 1 else 0)
    some (n2 + wsRun (s.drop n2))
  else none

/-- The lineup-line collector loop of the Come and Take It parser
(main.js lines 192-205): stop on a www line, a stop-pattern line or an
over-80-character line, cap at 8 collected lines. -/
def catiLoop : List JStr → List JStr → List JStr
  | acc, [] => acc.reverse
  | acc, l :: rest =>
    if l = [] then catiLoop acc rest
    else if startsWithCI (js "www.") l then acc.reverse
    else if stopTest l then acc.reverse
    else if l.length > 80 then acc.reverse
    else if acc.length + 1 ≥ 8 then (l :: acc).reverse
    else catiLoop (l :: acc) rest

/-- Per-line candidate extraction of the Come and Take It parser
(main.js lines 218-238): normalize, drop a leading with, split, reject
long, boilerplate and clock-time parts. -/
def catiProcessLine (rawLine : JStr) : List JStr :=
  let line := normalizeNameCATI rawLine
  if line = [] then []
  else
    let line2 := stripLeadWith line
    let parts := ((jsSplit catiSplitM line2).map normalizeNameCATI).filter
      (fun p => p ≠ [])
    parts.filter (fun part =>
      !(wordCount part > 8) && !partStopTest part && !hasClockTime part)

/-- The Come and Take It detail-page parser (main.js lines 164-257),
taking the page text lines and heading title the browser evaluate
returns.  Always returns one raw event. -/
def comeAndTakeItEvent (allLines : List JStr) (headingTitle : Option JStr)
    (sourceUrl : Option JStr) : List RawEvent :=
  let fullDate := allLines.find? isDateLine
  let startIndex := allLines.findIdx? (fun l => containsSubCI catiMarker l)
  let lineupLines := match startIndex with
    | some i => catiLoop [] (allLines.drop (i + 1))
    | none => []
  let candidateNames := lineupLines.flatMap catiProcessLine
  let uniqueNames := setAddAll [] candidateNames
  let headliner0 : Option JStr := uniqueNames.head?
  let headliner :=
    if !jsTruthy headliner0 && jsTruthy headingTitle then
      some (jsTrim (replaceFirst catiMarkerM (optVal headingTitle)))
    else headliner0
  let supportingActs := uniqueNames.drop 1
  [ RawEvent.mk headliner supportingActs (jsOrNull fullDate) sourceUrl
      none none ]

/-- Word-bounded keyword search: true when some position carries a
non-word (or absent) character before it and one of the keywords,
case-insensitively, with a non-word character or the end after it. -/
def scanKwB (kws : List JStr) : Option Char → JStr → Bool
  | _, [] => false
  | prev, c :: cs =>
    let bOk := match prev with
      | none => true
      | some p => !isWordChar p
    if bOk && kws.any (fun kw =>
         startsWithCI kw (c :: cs) &&
         (match ((c :: cs).drop kw.length).head? with
          | none => true
          | some d => !isWordChar d))
    then true
    else scanKwB kws (some c) cs

/-- The test for a with-or-featuring line (main.js line 619), the
word-bounded alternation with, featuring, feat optional-dot, presented
by; the feat-dot alternative is subsumed by the bare feat with a
non-word follower. -/
def hasWithPat (l : JStr) : Bool :=
  scanKwB [js "with", js "featuring", js "feat", js "presented by"] none l

/-- The candidate-line collector of the Continental Club detail parser
when a start anchor was found (main.js lines 622-631): at most 19 lines
after the anchor are visited, collection stops on a stop-pattern line,
a www line or an over-200-character line, and caps at 12. -/
def ccLoop1 : List JStr → List JStr → List JStr
  | acc, [] => acc.reverse
  | acc, l :: rest =>
    if l = [] then ccLoop1 acc rest
    else if stopTest l then acc.reverse
    else if startsWithCI (js "www.") l then acc.reverse
    else if l.length > 200 then acc.reverse
    else if acc.length + 1 ≥ 12 then (l :: acc).reverse
    else ccLoop1 (l :: acc) rest

/-- The anchor-less candidate collector (main.js lines 633-639): among
the first 40 lines, stop at a stop-pattern line, collect lines with a
with-pattern or a comma, cap at 12. -/
def ccLoop2 : List JStr → List JStr → List JStr
  | acc, [] => acc.reverse
  | acc, l :: rest =>
    if l = [] then ccLoop2 acc rest
    else if stopTest l then acc.reverse
    else if hasWithPat l ∨ ',' ∈ l then
      if acc.length + 1 ≥ 12 then (l :: acc).reverse
      else ccLoop2 (l :: acc) rest
    else ccLoop2 acc rest

/-- Per-line candidate extraction of the Continental Club detail parser
(main.js lines 643-655): normalize, drop a leading with, split, reject
boilerplate, clock-time and over-10-word parts. -/
def ccProcessLine (raw : JStr) : List JStr :=
  let line := normalizeNameCC raw
  if line = [] then []
  else
    let line2 := stripLeadWith line
    let parts := ((jsSplit catiSplitM line2).map normalizeNameCC).filter
      (fun p => p ≠ [])
    parts.filter (fun part =>
      !partStopTest part && !hasClockTime part && !(wordCount part > 10))

/-- Keyword alternation of the timely candidate-line patterns (main.js
line 660): an anchored featuring, feats, feat, with or presented by
followed by a word boundary. -/
def timelyLeadKws : List JStr :=
  [js "featuring", js "feats", js "feat", js "with", js "presented by"]

/-- Anchored word-bounded keyword test for the timely candidate
lines. -/
def timelyLeadTest (l : JStr) : Bool :=
  timelyLeadKws.any (fun kw =>
    startsWithCI kw l &&
    (match (l.drop kw.length).head? with
     | none => true
     | some d => !isWordChar d))

/-- Matcher for comma whitespace* with word-boundary (main.js line
660). -/
def commaWithM (s : JStr) : Option Nat :=
  match s with
  | ',' :: t =>
    let r := wsRun t
    if startsWithCI (js "with") (t.drop r) &&
       (match (t.drop (r + 4)).head? with
        | none => true
        | some d => !isWordChar d)
    then some (1 + r + 4) else none
  | _ => none

/-- A line qualifies as a timely candidate (main.js line 660): leading
keyword, or comma-with, or the unbounded substring feat. -/
def timelyCandTest (l : JStr) : Bool :=
  timelyLeadTest l || (scanFirst commaWithM l).isSome ||
    containsSubCI (js "feat") l

/-- Strip of the anchored keyword alternation with optional following
whitespace (main.js line 665); no word boundary here, so a prefix
match alone suffices. -/
def stripTimelyKw (l : JStr) : JStr :=
  match timelyLeadKws.find? (fun kw => startsWithCI kw l) with
  | some kw => l.drop (kw.length + wsRun (l.drop kw.length))
  | none => l

/-- Timely-branch candidate extraction (main.js lines 664-669): strip
the keyword, normalize, split, keep nonempty parts. -/
def ccTimelyLine (raw : JStr) : List JStr :=
  let line := normalizeNameCC (stripTimelyKw raw)
  if line = [] then []
  else ((jsSplit catiSplitM line).map normalizeNameCC).filter (fun p => p ≠ [])

/-- The Continental Club detail-page parser (main.js lines 602-684),
acting on the heading title, page text lines, the timely-host flag and
the calendar continuation fields.  Always returns one raw event. -/
def continentalClubEvent (headingTitle : Option JStr) (allLines : List JStr)
    (isTimely : Bool) (calendarDateText calendarTitle sourceUrl : Option JStr) :
    List RawEvent :=
  let i1 := if jsTruthy headingTitle then
      allLines.findIdx? (fun l => containsSub (optVal headingTitle) l)
    else none
  let startIndex := match i1 with
    | some i => some i
    | none => allLines.findIdx? hasWithPat
  let candidateLines := match startIndex with
    | some i => ccLoop1 [] ((allLines.drop (i + 1)).take 19)
    | none => ccLoop2 [] (allLines.take 40)
  let candidateNames := candidateLines.flatMap ccProcessLine
  let candidateNames2 :=
    if isTimely && (candidateNames = [] || !jsTruthy headingTitle) then
      let timelyCandidates := (allLines.take 40).filter timelyCandTest
      let extra := timelyCandidates.flatMap ccTimelyLine
      let cand := candidateNames ++ extra
      if cand = [] && jsTruthy headingTitle then [optVal headingTitle]
      else cand
    else candidateNames
  let unique := setAddAll [] candidateNames2
  let headliner := jsOrNull (jsOr calendarTitle (jsOr unique.head? headingTitle))
  let headliner2 :=
    if jsTruthy calendarTitle && jsTruthy headliner &&
       headliner ≠ calendarTitle
    then calendarTitle else headliner
  let supportingActs :=
    if jsTruthy calendarTitle && jsTruthy headliner &&
       headliner ≠ calendarTitle
    then unique.filter (fun n => n ≠ optVal calendarTitle)
    else unique.drop 1
  [ RawEvent.mk headliner2 supportingActs (jsOrNull calendarDateText)
      sourceUrl none none ]

/-- The first with-line of the Stubbs detail page (main.js line 1202):
the first text line starting with w i t h and whitespace. -/
def stubbsWithLine (lines : List JStr) : Option JStr :=
  lines.find? hasLeadWith

/-- Split delimiters comma, space-ampersand-space, space-and-space of
the Stubbs supports splitter (main.js line 1222). -/
def stubbsSplitM : JStr → Option Nat :=
  firstSome [matchLit (js ","), matchLit (js " & "), matchLitCI (js " and ")]

/-- Strip of one trailing dot (main.js line 1219). -/
def stripTrailingDot (l : JStr) : JStr :=
  match l.getLast? with
  | some '.' => l.dropLast
  | _ => l

/-- The Stubbs detail-page parser (main.js lines 1191-1239): headliner
from the calendar title or the page heading, supports from the first
with-line.  Always returns one raw event. -/
def stubbsAustinEvent (lines : List JStr)
    (titleText calendarDateText calendarTitle sourceUrl : Option JStr) :
    List RawEvent :=
  let headliner := jsOr3 calendarTitle titleText
  let supportingActs := match stubbsWithLine lines with
    | none => []
    | some wl =>
      let namesStr := stripTrailingDot (jsTrim (stripLeadWith wl))
      let parts := ((jsSplit stubbsSplitM namesStr).map jsTrim).filter
        (fun p => p ≠ [])
      parts
  [ RawEvent.mk headliner supportingActs (jsOrNull calendarDateText)
      sourceUrl none none ]

/-- Delimiter search of the heading with-split regex (main.js lines 762
and 898): at index i a whitespace run, then w-slash or with
(case-insensitively), then a whitespace run must follow; returns the
start of the second capture group.  When the trailing run reaches the
end of the string the greedy whitespace gives one character back to the
lazy second group (requiring a run of at least two), mirroring the
backtracking of the source pattern. -/
def pwDelimAt (h : JStr) (i : Nat) : Option Nat :=
  let r := wsRun (h.drop i)
  if r = 0 then none
  else
    let k := i + r
    let kl := if startsWithCI (js "w/") (h.drop k) then some 2
      else if startsWithCI (js "with") (h.drop k) then some 4
      else none
    match kl with
    | none => none
    | some klv =>
      let r2 := wsRun (h.drop (k + klv))
      if r2 = 0 then none
      else if k + klv + r2 = h.length then
        if r2 ≥ 2 then some (k + klv + r2 - 1) else none
      else some (k + klv + r2)

/-- Terminator test of the with-split regex: a whitespace run, one of
the keywords, another whitespace run (the at of the Parish pattern, at
or in of the Empire pattern). -/
def pwTermAt (termKws : List JStr) (h : JStr) (p : Nat) : Bool :=
  let rr := wsRun (h.drop p)
  rr ≥ 1 && termKws.any (fun kw =>
    startsWithCI kw (h.drop (p + rr)) &&
    wsRun (h.drop (p + rr + kw.length)) ≥ 1)

/-- The heading with-split: lazy first group (smallest index from 1 at
which the delimiter matches), lazy second group (smallest nonempty span
ending at a terminator, else everything to the end). -/
def withSplit (termKws : List JStr) (h : JStr) : Option (JStr × JStr) :=
  match findFirstIdx (fun i => (pwDelimAt h i).isSome) 1 h.length with
  | none => none
  | some i =>
    match pwDelimAt h i with
    | none => none
    | some g2start =>
      let g2 := match findFirstIdx (pwTermAt termKws h) (g2start + 1) h.length with
        | some p => (h.take p).drop g2start
        | none => h.drop g2start
      some (h.take i, g2)

/-- Split delimiters of the supports string (main.js lines 770 and 906):
comma, and, ampersand with required whitespace, slash with optional
whitespace. -/
def parishSupM : JStr → Option Nat :=
  firstSome
    [ matchLit (js ","), matchWsKw (js "and"), matchWsKw (js "&"),
      matchWsCh '/' ]

/-- Truncation at whitespace+ keyword whitespace+ rest (the patterns
removing a trailing at-, in- or similar clause); the match starts at the
whitespace run before the first keyword occurrence that is enclosed in
whitespace. -/
def stripWsKwsRest (kws : List JStr) (l : JStr) : JStr :=
  match findFirstIdx (fun j =>
      wsRunBefore l j ≥ 1 && kws.any (fun kw =>
        startsWithCI kw (l.drop j) &&
        wsRun (l.drop (j + kw.length)) ≥ 1)) 0 l.length with
  | some j => l.take (j - wsRunBefore l j)
  | none => l

/-- Truncation at whitespace* o n whitespace+ rest (main.js lines 785
and 921): the leading whitespace is optional, so the keyword needs no
whitespace before it. -/
def stripWsOnRest (l : JStr) : JStr :=
  match findFirstIdx (fun j =>
      startsWithCI (js "on") (l.drop j) &&
      wsRun (l.drop (j + 2)) ≥ 1) 0 l.length with
  | some j => l.take (j - wsRunBefore l j)
  | none => l

/-- The one-digit reading of the clock-time fragment: colon and two
digits directly after the first digit. -/
def timeNum1 (rest1 : JStr) : Option Nat :=
  match rest1 with
  | ':' :: d3 :: d4 :: _ =>
    if isDigitChar d3 && isDigitChar d4 then some 4 else none
  | _ => none

/-- The clock-time fragment length at a digit position: one or two
digits, colon, two digits (the greedy two-digit reading retried with one
digit when it does not complete). -/
def timeNumAt (l : JStr) (j : Nat) : Option Nat :=
  match l.drop j with
  | d1 :: rest1 =>
    if isDigitChar d1 then
      match rest1 with
      | d2 :: ':' :: d3 :: d4 :: _ =>
        if isDigitChar d2 && isDigitChar d3 && isDigitChar d4 then some 5
        else timeNum1 rest1
      | _ => timeNum1 rest1
    else none
  | [] => none

/-- Truncation pattern whitespace+ clock-time whitespace* optional
meridiem of the headliner cleanup (main.js lines 804 and 940): deletes
its first match. -/
def stripTimeFrag (l : JStr) : JStr :=
  match findFirstIdx (fun j =>
      wsRunBefore l j ≥ 1 && (timeNumAt l j).isSome) 0 l.length with
  | some j =>
    match timeNumAt l j with
    | some numLen =>
      let w := wsRun (l.drop (j + numLen))
      let e := j + numLen + w +
        (if startsWithCI (js "am") (l.drop (j + numLen + w)) ||
            startsWithCI (js "pm") (l.drop (j + numLen + w))
         then 2 else 0)
      l.take (j - wsRunBefore l j) ++ l.drop e
    | none => l
  | none => l

/-- Truncation at whitespace* hyphen-or-en-dash rest (main.js lines 805
and 941): everything from the whitespace before the first dash is
dropped. -/
def stripDashRest (l : JStr) : JStr :=
  match findFirstIdx (fun j =>
      match (l.drop j).head? with
      | some c => c = '-' || c = '–'
      | none => false) 0 l.length with
  | some j => l.take (j - wsRunBefore l j)
  | none => l

/-- The line-start keyword alternation with, featuring, feat
optional-dot, w-slash of the supports line scan (main.js lines 783 and
919), each requiring following whitespace. -/
def lineKws : List JStr :=
  [js "with", js "featuring", js "feat.", js "feat", js "w/"]

/-- Strip of the matching line-start keyword and its whitespace run;
none when the line does not match the pattern. -/
def lineKwStrip (l : JStr) : Option JStr :=
  match lineKws.find? (fun kw =>
      startsWithCI kw l && wsRun (l.drop kw.length) ≥ 1) with
  | some kw => some (l.drop (kw.length + wsRun (l.drop kw.length)))
  | none => none

/-- Split delimiters comma, and, ampersand of the per-line supports
splitter (main.js lines 789 and 925). -/
def lineSplitM : JStr → Option Nat :=
  firstSome [matchLit (js ","), matchWsKw (js "and"), matchWsKw (js "&")]

/-- The supports accumulation from one with-line (main.js lines 787-798
and 923-934): parts of 3 to 99 characters are appended unless already
present (exact match). -/
def linePushParts (acc : List JStr) (parts : List JStr) : List JStr :=
  parts.foldl (fun a p =>
    if p.length > 2 ∧ p.length < 100 ∧ p ∉ a then a ++ [p]
    else a) acc

/-- The supports string split of the heading with-match (main.js lines
769-772 and 905-908): split, strip the trailing keyword clause from
each part, trim, keep parts of 3 to 99 characters. -/
def supPartsF (kws : List JStr) (g2t : JStr) : List JStr :=
  ((jsSplit parishSupM g2t).map (fun p => jsTrim (stripWsKwsRest kws p))).filter
    (fun p => p.length > 2 && p.length < 100)

/-- The supports line scan over all page lines (main.js lines 780-800
and 916-936); stripKws are the trailing-clause keywords removed from
the artist string before splitting. -/
def lineScan (stripIn : Bool) (acc0 : List JStr) (lines : List JStr) :
    List JStr :=
  lines.foldl (fun acc line =>
    match lineKwStrip line with
    | none => acc
    | some artistStr0 =>
      let a1 := jsTrim artistStr0
      let a2 := stripWsKwsRest [js "at"] (stripWsOnRest a1)
      let a3 := if stripIn then stripWsKwsRest [js "in"] a2 else a2
      if a3 = [] then acc
      else
        let parts := ((jsSplit lineSplitM a3).map jsTrim).filter
          (fun p => p ≠ [])
        linePushParts acc parts) acc0

/-- The headliner cleanup of the Parish detail parser (main.js lines
802-808): drop a clock time, a trailing dash clause and a trailing
at-clause, then trim. -/
def parishCleanHead (l : JStr) : JStr :=
  jsTrim (stripWsKwsRest [js "at"] (stripDashRest (stripTimeFrag l)))

/-- The headliner cleanup of the Empire detail parser (main.js lines
938-948): the Parish steps extended by an in-clause and applied
twice. -/
def empireCleanHead (l : JStr) : JStr :=
  let f := fun x =>
    stripWsKwsRest [js "in"] (stripWsKwsRest [js "at"]
      (stripDashRest (stripTimeFrag x)))
  jsTrim (f (f l))

/-- The Parish detail-page parser (main.js lines 742-820): headliner
from the calendar title or heading, split on the with-pattern, supports
merged from the heading split and the line scan.  Always returns one
raw event. -/
def parishAustinEvent (eventLines : List JStr)
    (headingText calendarTitle sourceUrl : Option JStr) : List RawEvent :=
  let h0 := jsOr3 calendarTitle headingText
  let hw := if jsTruthy h0 then withSplit [js "at"] (optVal h0) else none
  let h1 := match hw with
    | some (g1, _) => some (jsTrim g1)
    | none => h0
  let sup1 := match hw with
    | some (_, g2) => supPartsF [js "at"] (jsTrim g2)
    | none => []
  let sup2 := lineScan false sup1 eventLines
  let h2 := if jsTruthy h1 then some (parishCleanHead (optVal h1)) else h1
  let uniqueSupports := setAddAll [] sup2
  [ RawEvent.mk h2 uniqueSupports none sourceUrl none none ]

/-- The Empire detail-page parser (main.js lines 878-961): as the Parish
parser, with at-or-in terminators and the doubled cleanup.  Always
returns one raw event. -/
def empireAtAustinEvent (eventLines : List JStr)
    (headingText calendarTitle sourceUrl : Option JStr) : List RawEvent :=
  let h0 := jsOr3 calendarTitle headingText
  let hw := if jsTruthy h0 then withSplit [js "at", js "in"] (optVal h0)
    else none
  let h1 := match hw with
    | some (g1, _) => some (jsTrim g1)
    | none => h0
  let sup1 := match hw with
    | some (_, g2) => supPartsF [js "at", js "in"] (jsTrim g2)
    | none => []
  let sup2 := lineScan true sup1 eventLines
  let h2 := if jsTruthy h1 then some (empireCleanHead (optVal h1)) else h1
  let uniqueSupports := setAddAll [] sup2
  [ RawEvent.mk h2 uniqueSupports none sourceUrl none none ]

/-- An anchor element as seen by the calendar-page link extraction:
its text content, its href attribute (null when absent) and its
resolved absolute address. -/
structure Anchor where
  textContent : JStr
  href : Option JStr
  url : JStr
deriving DecidableEq, Repr

/-- An extracted detail link: visible title and absolute address. -/
structure LinkItem where
  title : JStr
  url : JStr
deriving DecidableEq, Repr

/-- A queued follow-up request with its routing and continuation
fields (the url and userData of the source addRequests calls). -/
structure ParseRequest where
  url : JStr
  venueId : Option JStr
  parserId : String
  calendarTitle : Option JStr
  calendarDateText : Option JStr
deriving DecidableEq, Repr

/-- The anchor filter of the Parish and Empire calendar extraction
(main.js lines 698-714): nonempty trimmed text, a present href, at
least one letter or digit, at least three characters. -/
def linkKeep (text : JStr) (href : Option JStr) : Bool :=
  text ≠ [] && jsTruthy href &&
  text.any (fun c => isAlphaChar c || isDigitChar c) && text.length ≥ 3

/-- The Parish and Empire calendar link extraction with its seen-set
deduplication by address and text. -/
def extractLinksGo (seen : List (JStr × JStr)) : List Anchor → List LinkItem
  | [] => []
  | a :: rest =>
    let text := jsTrim a.textContent
    if linkKeep text a.href then
      if (a.url, text) ∈ seen then extractLinksGo seen rest
      else LinkItem.mk text a.url :: extractLinksGo ((a.url, text) :: seen) rest
    else extractLinksGo seen rest

/-- Link extraction from the events anchors (Parish and Empire). -/
def extractEventLinks (anchors : List Anchor) : List LinkItem :=
  extractLinksGo [] anchors

/-- The Stubbs calendar link extraction (main.js lines 1145-1163):
nonempty title and address, deduplicated by address and title. -/
def extractStubbsGo (seen : List (JStr × JStr)) : List Anchor → List LinkItem
  | [] => []
  | a :: rest =>
    let title := jsTrim a.textContent
    if title ≠ [] && a.url ≠ [] then
      if (a.url, title) ∈ seen then extractStubbsGo seen rest
      else LinkItem.mk title a.url :: extractStubbsGo ((a.url, title) :: seen) rest
    else extractStubbsGo seen rest

/-- Link extraction from the tm-event anchors (Stubbs). -/
def extractStubbsLinks (anchors : List Anchor) : List LinkItem :=
  extractStubbsGo [] anchors

/-- The Parish calendar-page parser (main.js lines 690-736): extract the
event links; with a crawl context enqueue one detail request per link
and return no events, otherwise return one summary event per link. -/
def parishAustin (anchors : List Anchor) (venueId : Option JStr)
    (hasCrawler : Bool) : List ParseRequest × List RawEvent :=
  let events := extractEventLinks anchors
  if events = [] then ([], [])
  else
    let detailRequests := events.map (fun ev =>
      ParseRequest.mk ev.url venueId "parishAustinEvent"
        (jsOrNull (some ev.title)) none)
    if hasCrawler && detailRequests.length > 0 then (detailRequests, [])
    else
      ([], events.map (fun ev =>
        RawEvent.mk (some ev.title) [] none (some ev.url) none none))

/-- The Empire calendar-page parser (main.js lines 826-872), identical
to the Parish one except for the detail parser identifier. -/
def empireAtAustin (anchors : List Anchor) (venueId : Option JStr)
    (hasCrawler : Bool) : List ParseRequest × List RawEvent :=
  let events := extractEventLinks anchors
  if events = [] then ([], [])
  else
    let detailRequests := events.map (fun ev =>
      ParseRequest.mk ev.url venueId "empireAtAustinEvent"
        (jsOrNull (some ev.title)) none)
    if hasCrawler && detailRequests.length > 0 then (detailRequests, [])
    else
      ([], events.map (fun ev =>
        RawEvent.mk (some ev.title) [] none (some ev.url) none none))

/-- The Stubbs calendar-page parser (main.js lines 1141-1185): as the
others, with an explicit null calendarDateText in the requests and a
title-or-address fallback headliner in the summary events. -/
def stubbsAustin (anchors : List Anchor) (venueId : Option JStr)
    (hasCrawler : Bool) : List ParseRequest × List RawEvent :=
  let events := extractStubbsLinks anchors
  if events = [] then ([], [])
  else
    let detailRequests := events.map (fun ev =>
      ParseRequest.mk ev.url venueId "stubbsAustinEvent"
        (jsOrNull (some ev.title)) none)
    if hasCrawler && detailRequests.length > 0 then (detailRequests, [])
    else
      ([], events.map (fun ev =>
        RawEvent.mk (some (if ev.title = [] then ev.url else ev.title)) []
          none (some ev.url) none none))

/-- Numeric value of a digit character. -/
def charVal (c : Char) : Nat := c.toNat - 48

/-- Tail of the time pattern: whitespace* then the required meridiem
(the input is already lower-cased); false stands for am, true for
pm. -/
def ptmTail (rest : JStr) : Option Bool :=
  let w := wsRun rest
  if startsWith (js "am") (rest.drop w) then some false
  else if startsWith (js "pm") (rest.drop w) then some true
  else none

/-- Optional colon-minutes then the tail; on failure of the tail after
consuming the minutes the group is retried empty (the backtracking of
the optional group before the required meridiem). -/
def ptmColon (rest : JStr) : Option (Nat × Bool) :=
  match rest with
  | ':' :: d3 :: d4 :: r2 =>
    if isDigitChar d3 && isDigitChar d4 then
      match ptmTail r2 with
      | some pm => some (charVal d3 * 10 + charVal d4, pm)
      | none =>
        match ptmTail rest with
        | some pm => some (0, pm)
        | none => none
    else
      match ptmTail rest with
      | some pm => some (0, pm)
      | none => none
  | _ =>
    match ptmTail rest with
    | some pm => some (0, pm)
    | none => none

/-- Match attempt of the time pattern one-or-two-digits optional-minutes
whitespace* meridiem at the front: greedy two digits first, then the
one-digit retry.  Returns hour value, minutes value and the pm flag. -/
def ptmAt (u : JStr) : Option (Nat × Nat × Bool) :=
  match u with
  | d1 :: rest1 =>
    if isDigitChar d1 then
      let one := match ptmColon rest1 with
        | some (mm, pm) => some (charVal d1, mm, pm)
        | none => none
      match rest1 with
      | d2 :: rest2 =>
        if isDigitChar d2 then
          match ptmColon rest2 with
          | some (mm, pm) => some (charVal d1 * 10 + charVal d2, mm, pm)
          | none => one
        else one
      | [] => one
    else none
  | [] => none

/-- Leftmost match of the time pattern. -/
def ptmScan : JStr → Option (Nat × Nat × Bool)
  | [] => none
  | c :: cs =>
    match ptmAt (c :: cs) with
    | some r => some r
    | none => ptmScan cs

/-- parseTimeToMinutes of the Continental Club secondary calendar view
(main.js lines 365-376): null on a falsy input or no match; twelve-hour
arithmetic with 12am giving 0 and 12pm giving 720. -/
def parseTimeToMinutes (t : Option JStr) : Option Nat :=
  match t with
  | none => none
  | some ts =>
    if ts = [] then none
    else
      match ptmScan (lower (jsTrim ts)) with
      | none => none
      | some (h, mm, pm) =>
        let h2 := if pm && h ≠ 12 then h + 12 else h
        let h3 := if !pm && h2 = 12 then 0 else h2
        some (h3 * 60 + mm)

/-- A timely-event node of the secondary calendar view as the browser
callback sees it (main.js lines 378-400): presence of the title
element, the title text with the time child removed, the time child
text, the aria label and the detail link address. -/
structure CCTNode where
  hasTitle : Bool
  titleRaw : JStr
  timeRaw : Option JStr
  aria : JStr
  detailUrl : Option JStr
deriving DecidableEq, Repr

/-- One intermediate row of the secondary calendar view before
grouping. -/
structure CCRow where
  eventDateRaw : Option JStr
  title : JStr
  minutes : Option Nat
  domIndex : Nat
  detailUrl : Option JStr
deriving DecidableEq, Repr

/-- The trailing-four-digits test of the aria date extraction
(main.js line 393). -/
def endsIn4Digits (l : JStr) : Bool :=
  l.length ≥ 4 && (l.drop (l.length - 4)).all isDigitChar

/-- The aria-label date: split on commas, trim, drop empties, keep the
last part when it ends in four digits (main.js lines 389-394). -/
def ariaDate (aria : JStr) : Option JStr :=
  if aria ≠ [] then
    let parts := ((jsSplit (matchLit (js ",")) aria).map jsTrim).filter
      (fun p => p ≠ [])
    match parts.getLast? with
    | some last => if endsIn4Digits last then some last else none
    | none => none
  else none

/-- Row construction of the secondary calendar view (main.js lines
378-400): skip nodes without a title element or with an empty title,
trim the texts, parse the time, record the arrival index. -/
def ccBuildRows (nodes : List CCTNode) : List CCRow :=
  (nodes.enum).filterMap (fun (idx, n) =>
    if !n.hasTitle then none
    else
      let timeText := n.timeRaw.map jsTrim
      let title := jsTrim n.titleRaw
      if title = [] then none
      else
        some (CCRow.mk (ariaDate n.aria) title (parseTimeToMinutes timeText)
          idx n.detailUrl))

/-- The grouping key: the date text or the word unknown
(main.js line 404). -/
def ccKey (r : CCRow) : JStr := jsOrS r.eventDateRaw (js "unknown")

/-- Insertion-ordered grouping, the Map of main.js lines 402-407. -/
def groupInsert : List (JStr × List CCRow) → JStr → CCRow →
    List (JStr × List CCRow)
  | [], k, r => [(k, [r])]
  | (k0, g) :: rest, k, r =>
    if k0 = k then (k0, g ++ [r]) :: rest
    else (k0, g) :: groupInsert rest k r

/-- Group the rows by date key, keys in first-appearance order. -/
def groupRows (rows : List CCRow) : List (JStr × List CCRow) :=
  rows.foldl (fun gs r => groupInsert gs (ccKey r) r) []

/-- The sort comparator of main.js lines 411-415: unparsable times
first (ties by arrival index), then ascending minutes. -/
def ccCmp (a b : CCRow) : Int :=
  match a.minutes, b.minutes with
  | none, none => (a.domIndex : Int) - b.domIndex
  | none, some _ => -1
  | some _, none => 1
  | some ma, some mb => (ma : Int) - mb

/-- Stable insertion by a JavaScript comparator: the element is placed
before the first list member that must come strictly after it. -/
def insertCmp {α : Type} (cmp : α → α → Int) (x : α) : List α → List α
  | [] => [x]
  | y :: ys => if cmp x y < 0 then x :: y :: ys else y :: insertCmp cmp x ys

/-- Stable comparator sort (Array.prototype.sort is stable). -/
def sortCmp {α : Type} (cmp : α → α → Int) (l : List α) : List α :=
  l.foldl (fun acc x => insertCmp cmp x acc) []

/-- The per-date emission of main.js lines 409-418: each group is
sorted by the comparator, the binding of its last (latest-starting) row
is dead in the source — every row of the group is emitted unchanged as
its own event, no role is derived from the ordering. -/
def ccSortEmit (rows : List CCRow) : List CCRow :=
  (groupRows rows).flatMap (fun g => sortCmp ccCmp g.2)

/-- The secondary-view result rows mapped to raw events (the out rows of
main.js line 417): each row becomes an event carrying its own title as
headliner with no supporting acts. -/
def ccSecondaryOutEvents (timelyUrl : Option JStr) (nodes : List CCTNode) :
    List RawEvent :=
  (ccSortEmit (ccBuildRows nodes)).map (fun it =>
    RawEvent.mk (some it.title) [] it.eventDateRaw timelyUrl none none)

/-- splitArtists of the stage-two post-processing (main.js lines
449-454): normalize, split on the shared delimiter alternation, first
part as headliner, rest as supports; the whole cleaned string when no
part remains. -/
def splitArtists (s : JStr) : Option JStr × List JStr :=
  let cleaned := normalizeTitle s
  let parts := ((jsSplit splitPartsM cleaned).map jsTrim).filter
    (fun p => p ≠ [])
  match parts with
  | [] => (jsOrNull (some cleaned), [])
  | p :: rest => (some p, rest)

/-- The stage-two returned rows (main.js lines 456-459): every
secondary-view event re-split through splitArtists. -/
def ccStage2RowsOut (sourceUrl timelyUrl : Option JStr)
    (nodes : List CCTNode) : List RawEvent :=
  (ccSecondaryOutEvents timelyUrl nodes).map (fun r =>
    let pr := splitArtists (optVal r.headliner)
    RawEvent.mk pr.1 pr.2 (jsOrNull r.eventDateRaw)
      (jsOr r.sourceUrl sourceUrl) none none)

/-- JSON values, for the structured-data blocks the Emo and Scoot Inn
parsers scan; object keys are unique (JSON.parse keeps one binding per
key). -/
inductive Json where
  | null
  | bool (b : Bool)
  | num (n : Int)
  | str (s : JStr)
  | arr (items : List Json)
  | obj (fields : List (String × Json))
deriving Repr

/-- First binding of a key in an object. -/
def lookupJ : List (String × Json) → String → Option Json
  | [], _ => none
  | (k, v) :: rest, key => if k = key then some v else lookupJ rest key

/-- A JSON field value read as a string (the source sites put strings in
these fields). -/
def jsonStr : Option Json → Option JStr
  | some (.str s) => some s
  | _ => none

/-- JavaScript truthiness of a JSON value. -/
def jsonTruthy : Json → Bool
  | .null => false
  | .bool b => b
  | .num n => n ≠ 0
  | .str s => s ≠ []
  | .arr _ => true
  | .obj _ => true

/-- One extracted show row of the Emo and Scoot Inn parsers. -/
structure EmosRow where
  headliner : JStr
  eventDateRaw : Option JStr
  sourceUrl : Option JStr
deriving DecidableEq, Repr

/-- The push state: the seen keys (lower-cased name, address, date) and
the rows in arrival order. -/
structure EmosState where
  seen : List (JStr × JStr × JStr)
  rows : List EmosRow
deriving Repr

/-- pushRow (main.js lines 979-990): skip a falsy name, deduplicate on
the lower-cased raw name with address and date, store the trimmed
name. -/
def pushRow (st : EmosState) (name url dateRaw : Option JStr) : EmosState :=
  if !jsTruthy name then st
  else
    let key := (lower (optVal name), jsOrS url [], jsOrS dateRaw [])
    if st.seen.contains key then st
    else
      EmosState.mk (key :: st.seen)
        (st.rows ++ [EmosRow.mk (jsTrim (optVal name)) (jsOrNull dateRaw)
          (jsOrNull url)])

/-- The MusicEvent push of extractFromObject (main.js lines 999-1001). -/
def pushMusicEvent (st : EmosState) (fields : List (String × Json)) :
    EmosState :=
  let typeOk := match lookupJ fields "@type" with
    | some (Json.str t) => t = js "MusicEvent"
    | _ => false
  if typeOk && jsTruthy (jsonStr (lookupJ fields "name")) then
    pushRow st (jsonStr (lookupJ fields "name"))
      (jsOr (jsonStr (lookupJ fields "url")) (jsonStr (lookupJ fields "sameAs")))
      (jsOr (jsonStr (lookupJ fields "startDate"))
        (jsonStr (lookupJ fields "date")))
  else st

mutual

/-- extractFromObject (main.js lines 992-1004): arrays are traversed,
MusicEvent objects pushed, a truthy at-graph member recursed into
(object keys being unique, the per-field walk visits exactly the looked
up binding). -/
def extractJson (st : EmosState) : Json → EmosState
  | .obj fields => extractGraph (pushMusicEvent st fields) fields
  | .arr items => extractArr st items
  | _ => st

def extractGraph (st : EmosState) : List (String × Json) → EmosState
  | [] => st
  | (k, v) :: rest =>
    if k = "@graph" && jsonTruthy v then extractGraph (extractJson st v) rest
    else extractGraph st rest

def extractArr (st : EmosState) : List Json → EmosState
  | [] => st
  | j :: rest => extractArr (extractJson st j) rest

end

/-- A DOM event card of the fallback scan (main.js lines 1026-1037):
the title element always resolves (the card itself is the fallback), so
only its text, the link address and the date resolution appear. -/
structure EmosCard where
  titleRaw : JStr
  url : Option JStr
  dateRaw : Option JStr
deriving DecidableEq, Repr

/-- The JSON-LD stage (main.js lines 1006-1015): each script content is
parsed — a malformed one is caught and skipped — and extracted. -/
def emosLdState (scripts : List (Except Unit Json)) : EmosState :=
  scripts.foldl (fun st sc =>
    match sc with
    | .error _ => st
    | .ok j => extractJson st j) (EmosState.mk [] [])

/-- The DOM-card fallback stage (main.js lines 1017-1038). -/
def emosDomScan (st : EmosState) (cards : List EmosCard) : EmosState :=
  cards.foldl (fun st c =>
    pushRow st (some (jsTrim c.titleRaw)) c.url c.dateRaw) st

/-- The evaluate body of the Emo parser: JSON-LD rows, the DOM scan only
when they are empty (main.js line 1017). -/
def emosEvaluate (scripts : List (Except Unit Json)) (cards : List EmosCard) :
    List EmosRow :=
  let st1 := emosLdState scripts
  if st1.rows = [] then (emosDomScan st1 cards).rows else st1.rows

/-- The Emo parser (main.js lines 966-1049): evaluate rows mapped onto
raw events with the page address as fallback source. -/
def emosAustin (scripts : List (Except Unit Json)) (cards : List EmosCard)
    (sourceUrl : Option JStr) : List RawEvent :=
  (emosEvaluate scripts cards).map (fun ev =>
    RawEvent.mk (jsOrNull (some ev.headliner)) [] (jsOrNull ev.eventDateRaw)
      (jsOr ev.sourceUrl sourceUrl) none none)

/-- The Scoot Inn parser (main.js lines 1054-1137) is a verbatim copy of
the Emo parser. -/
def scootInn (scripts : List (Except Unit Json)) (cards : List EmosCard)
    (sourceUrl : Option JStr) : List RawEvent :=
  emosAustin scripts cards sourceUrl

/-- One item of the upstream calendar API payload (main.js lines
289-293): title, the two start fields, the custom address and the
identifier (read through a template literal, hence a string here). -/
structure CCApiItem where
  title : Option JStr
  startDt : Option JStr
  startUtcDt : Option JStr
  customUrl : Option JStr
  idStr : Option JStr
deriving DecidableEq, Repr

/-- The per-item event address (main.js lines 295-304): the custom
address or the identifier under the events host, else null. -/
def ccItemUrl (it : CCApiItem) : Option JStr :=
  match jsOrNull it.customUrl with
  | some cu => some (js "https://events.timely.fun/74avt53i/event/" ++ cu)
  | none =>
    match jsOrNull it.idStr with
    | some i => some (js "https://events.timely.fun/74avt53i/event/" ++ i)
    | none => none

/-- The API-stage rows (main.js lines 286-313): one event per item of
each date key, date from the start fields or the date key, source from
the item address or the page. -/
def ccApiRows (sourceUrl : Option JStr)
    (items : List (JStr × List CCApiItem)) : List RawEvent :=
  items.flatMap (fun g =>
    g.2.map (fun it =>
      let start := jsOr it.startDt (jsOrNull it.startUtcDt)
      RawEvent.mk (jsOrNull it.title) []
        (jsOr start (jsOrNull (some g.1)))
        (jsOr (ccItemUrl it) sourceUrl) none none))

/-- The API-stage detail requests (main.js lines 318-337): one per item
with an address, carrying the date key and title. -/
def ccApiDetailReqs (venueId : Option JStr)
    (items : List (JStr × List CCApiItem)) : List ParseRequest :=
  items.flatMap (fun g =>
    g.2.filterMap (fun it =>
      match ccItemUrl it with
      | some u => some (ParseRequest.mk u venueId "continentalClubEvent"
          (jsOrNull it.title) (some g.1))
      | none => none))

/-- A DOM node of the final evaluate (main.js lines 468-550), with the
resolutions the browser callback performs: navigation-ancestor flag,
selected title text, timely time-child text, link address, aria label
and resolved time-element date. -/
structure CCDomNode where
  inNav : Bool
  titleRaw : Option JStr
  timeChildText : Option JStr
  href : Option JStr
  aria : Option JStr
  timeDatetime : Option JStr
deriving DecidableEq, Repr

/-- A row of the final evaluate. -/
structure CCEvalRow where
  title : JStr
  url : Option JStr
  dateText : Option JStr
deriving DecidableEq, Repr

/-- First index of a case-sensitive substring. -/
def indexOfSub (pat l : JStr) : Option Nat :=
  scanFirst (fun s => if startsWith pat s then some pat.length else none) l
    |>.map (fun p => p.1)

/-- String.prototype.replace with a plain string pattern: delete the
first occurrence. -/
def stringReplaceFirst (pat l : JStr) : JStr :=
  match indexOfSub pat l with
  | some i => l.take i ++ l.drop (i + pat.length)
  | none => l

/-- pushIfValid (main.js lines 471-475): a falsy title yields nothing;
the key pairs the address (empty for null) with the raw title, the
stored title is trimmed. -/
def pushIfValid (title url dateText : Option JStr) :
    Option ((JStr × JStr) × CCEvalRow) :=
  if !jsTruthy title then none
  else
    let t := optVal title
    some ((jsOrS url [], t), CCEvalRow.mk (jsTrim t) url (jsOrNull dateText))

/-- The last-four-digits test of the evaluate date extractions
(main.js lines 497 and 538 use it without and with a leading word
boundary respectively); this is the unbounded form. -/
def lastIs4Digits (l : JStr) : Bool := endsIn4Digits l

/-- The word-bounded trailing-four-digits test of the text scan
(main.js line 538). -/
def endsBounded4 (l : JStr) : Bool :=
  l.length ≥ 4 && (l.drop (l.length - 4)).all isDigitChar &&
  (l.length = 4 ||
    (match (l.drop (l.length - 5)).head? with
     | some c => !isWordChar c
     | none => true))

/-- The timely-node entry of the evaluate (main.js lines 479-504):
skip navigation nodes, delete the time-child text from the title, date
from the aria label else the time element. -/
def ccEvalTimelyEntry (n : CCDomNode) : Option ((JStr × JStr) × CCEvalRow) :=
  if n.inNav then none
  else
    let title0 := n.titleRaw.map jsTrim
    let title1 := match n.timeChildText with
      | some tc =>
        (match title0 with
         | some t => some (jsTrim (stringReplaceFirst (jsTrim tc) t))
         | none => title0)
      | none => title0
    let d1 := match n.aria with
      | some a =>
        if a ≠ [] then
          let parts := ((jsSplit (matchLit (js ",")) a).map jsTrim).filter
            (fun p => p ≠ [])
          match parts.getLast? with
          | some last => if lastIs4Digits last then some last else none
          | none => none
        else none
      | none => none
    let dateText := match d1 with
      | some d => some d
      | none => n.timeDatetime
    pushIfValid title1 n.href dateText

/-- The denial list of the candidate scan (main.js line 523). -/
def denyTitles : List JStr :=
  [ js "about", js "contact", js "gallery", js "shop", js "welcome",
    js "home", js "contact us", js "austin shop", js "houston shop",
    js "austin tickets" ]

/-- The candidate-node entry of the evaluate (main.js lines 512-527):
skip navigation nodes and denial-listed titles. -/
def ccEvalCandEntry (n : CCDomNode) : Option ((JStr × JStr) × CCEvalRow) :=
  if n.inNav then none
  else
    let title := n.titleRaw.map jsTrim
    let tLow := lower (jsOrS title [])
    if tLow ≠ [] ∧ tLow ∈ denyTitles then none
    else pushIfValid title n.href n.timeDatetime

/-- The text-scan entries (main.js lines 535-545): a line with bounded
trailing four digits pairs with the following short line. -/
def ccTextGo : List JStr → List ((JStr × JStr) × CCEvalRow)
  | [] => []
  | l :: rest =>
    let cur :=
      if endsBounded4 l then
        match rest.head? with
        | some nx =>
          if nx ≠ [] && nx.length < 80 then
            (pushIfValid (some nx) none (some l)).toList
          else []
        | none => []
      else []
    cur ++ ccTextGo rest

/-- Overwriting insertion into the JavaScript Map (keeps the position of
the first insertion of a key, keeps the last value). -/
def assocSet {κ ν : Type} [DecidableEq κ] :
    List (κ × ν) → κ → ν → List (κ × ν)
  | [], k, v => [(k, v)]
  | (k0, v0) :: rest, k, v =>
    if k0 = k then (k0, v) :: rest else (k0, v0) :: assocSet rest k v

/-- The final map-based deduplication of the evaluate (main.js lines
505-507, 528-530 and 547-549). -/
def mapDedup (entries : List ((JStr × JStr) × CCEvalRow)) : List CCEvalRow :=
  (entries.foldl (fun m e => assocSet m e.1 e.2) []).map (fun e => e.2)

/-- The evaluate inputs: the timely nodes, the generic candidate nodes
and the visible-text lines. -/
structure CCEvalInput where
  timelyNodes : List CCDomNode
  candNodes : List CCDomNode
  textLines : List JStr
deriving Repr

/-- The evaluate body (main.js lines 468-550): the timely scan when
timely nodes exist, else the candidate scan when candidates exist, else
the text scan. -/
def ccEvaluate (input : CCEvalInput) : List CCEvalRow :=
  if input.timelyNodes ≠ [] then
    mapDedup (input.timelyNodes.filterMap ccEvalTimelyEntry)
  else if input.candNodes ≠ [] then
    mapDedup (input.candNodes.filterMap ccEvalCandEntry)
  else mapDedup (ccTextGo input.textLines)

/-- The part of an absolute address after the scheme separator; none
when there is no separator (new URL would throw). -/
def urlAfterScheme (u : JStr) : Option JStr :=
  (indexOfSub (js "://") u).map (fun i => u.drop (i + 3))

/-- The pathname of the part after the scheme: from the first slash to
a query or fragment; a missing path is the root slash. -/
def urlPathOf (rest : JStr) : JStr :=
  match rest.findIdx? (fun c => c = '/') with
  | some i =>
    (rest.drop i).takeWhile (fun c => !(c = '?' || c = '#'))
  | none => js "/"

/-- The search part: from the question mark to a fragment. -/
def urlSearchOf (rest : JStr) : JStr :=
  match rest.findIdx? (fun c => c = '?') with
  | some i => (rest.drop i).takeWhile (fun c => c ≠ '#')
  | none => []

/-- The denial paths of likelyEvent (main.js line 560). -/
def denyPaths : List JStr :=
  [ js "/", js "/about", js "/contact", js "/gallery", js "/shop",
    js "/austintickets", js "/houston", js "/bigtop" ]

/-- The event-word test of likelyEvent (main.js line 562) over pathname
plus search: tm-event, an event path segment, a bounded show, ticket,
performance, gig or lineup. -/
def likelyWordTest (pl : JStr) : Bool :=
  containsSubCI (js "tm-event") pl || containsSubCI (js "/event/") pl ||
  containsSubCI (js "/events/") pl || scanKwB [js "show"] none pl ||
  containsSubCI (js "ticket") pl || containsSubCI (js "performance") pl ||
  containsSubCI (js "gig") pl || containsSubCI (js "lineup") pl

/-- A word-bounded run of exactly four digits somewhere in the string
(main.js line 563, first alternative). -/
def has4DigitBounded : Option Char → JStr → Bool
  | _, [] => false
  | prev, c :: cs =>
    let bOk := match prev with
      | none => true
      | some p => !isWordChar p
    if bOk && ((c :: cs).take 4).length = 4 &&
       ((c :: cs).take 4).all isDigitChar &&
       (match ((c :: cs).drop 4).head? with
        | none => true
        | some d => !isWordChar d)
    then true
    else has4DigitBounded (some c) cs

/-- One-or-two bounded digits, separator, one-or-two digits with a
trailing boundary (main.js line 563, second alternative); the greedy
digit groups backtrack against the separator and the boundary. -/
def dateSlashAt (s : JStr) : Bool :=
  let num1 : List Nat := [2, 1]
  num1.any (fun n1 =>
    (s.take n1).length = n1 && (s.take n1).all isDigitChar &&
    (match (s.drop n1).head? with
     | some sep =>
       (sep = '-' || sep = '/') &&
       ([2, 1].any (fun n2 =>
         let t := s.drop (n1 + 1)
         (t.take n2).length = n2 && (t.take n2).all isDigitChar &&
         (match (t.drop n2).head? with
          | none => true
          | some d => !isWordChar d)))
     | none => false))

/-- Scan for the bounded date-like digit pair. -/
def hasDateSlash : Option Char → JStr → Bool
  | _, [] => false
  | prev, c :: cs =>
    let bOk := match prev with
      | none => true
      | some p => !isWordChar p
    if bOk && dateSlashAt (c :: cs) then true
    else hasDateSlash (some c) cs

/-- likelyEvent (main.js lines 555-569): reject denial paths, accept
event words in path and search, date-like digits anywhere in the
address, or a deep austin path; an unparsable address is caught as
false. -/
def likelyEvent (url : Option JStr) : Bool :=
  match url with
  | none => false
  | some u =>
    if u = [] then false
    else
      match urlAfterScheme u with
      | none => false
      | some rest =>
        let path := lower (urlPathOf rest)
        let search := urlSearchOf rest
        if path ∈ denyPaths then false
        else if likelyWordTest (path ++ search) then true
        else if has4DigitBounded none u || hasDateSlash none u then true
        else if containsSub (js "/austin/") path &&
                ((jsSplit (matchLit (js "/")) path).filter
                  (fun p => p ≠ [])).length > 2
        then true
        else false

/-- The timely secondary-view address (main.js lines 355-357). -/
def ccTimelyUrl : JStr :=
  js "https://events.timely.fun/74avt53i/month?venues=678194628&nofilters=1&timely_id=timely-iframe-embed-0"

/-- The stage-three tag: 3 for the timely scan, 4 for the candidate
scan, 5 for the text scan. -/
def ccEvalStageTag (input : CCEvalInput) : Nat :=
  if input.timelyNodes ≠ [] then 3
  else if input.candNodes ≠ [] then 4
  else 5

/-- Stage three of the Continental Club calendar parser (main.js lines
468-596): evaluate, keep likely event links, enqueue them under a crawl
context and return nothing, else emit one summary event per row. -/
def ccStage3 (input : CCEvalInput) (venueId sourceUrl : Option JStr)
    (hasCrawler : Bool) : Nat × List ParseRequest × List RawEvent :=
  let rows := ccEvaluate input
  let withUrls := rows.filter (fun r => jsTruthy r.url)
  let filtered := withUrls.filter (fun r => likelyEvent r.url)
  if filtered ≠ [] && hasCrawler then
    let detailRequests := filtered.map (fun ev =>
      ParseRequest.mk (optVal ev.url) venueId "continentalClubEvent"
        (jsOrNull (some ev.title)) (jsOrNull ev.dateText))
    if detailRequests ≠ [] then (ccEvalStageTag input, detailRequests, [])
    else
      (ccEvalStageTag input, [],
        rows.flatMap (fun r =>
          if r.title = [] then []
          else [RawEvent.mk (some r.title) [] (jsOrNull r.dateText) sourceUrl
            none none]))
  else
    (ccEvalStageTag input, [],
      rows.flatMap (fun r =>
        if r.title = [] then []
        else [RawEvent.mk (some r.title) [] (jsOrNull r.dateText) sourceUrl
          none none]))

/-- Stage two (main.js lines 354-466): the secondary calendar view; its
result rows, when any, are returned re-split (the queue loop finds no
detail address on the emitted rows, so nothing is ever enqueued here);
with no rows or a navigation failure control falls to stage three. -/
def ccStage2 (timelyOutcome : Except Unit (List CCTNode))
    (input : CCEvalInput) (venueId sourceUrl : Option JStr)
    (hasCrawler : Bool) : Nat × List ParseRequest × List RawEvent :=
  match timelyOutcome with
  | .error _ => ccStage3 input venueId sourceUrl hasCrawler
  | .ok nodes =>
    let timelyRows := ccSecondaryOutEvents (some ccTimelyUrl) nodes
    if timelyRows ≠ [] then
      (2, [], (timelyRows.map (fun r =>
        let pr := splitArtists (optVal r.headliner)
        RawEvent.mk pr.1 pr.2 (jsOrNull r.eventDateRaw)
          (jsOr r.sourceUrl sourceUrl) none none)))
    else ccStage3 input venueId sourceUrl hasCrawler

/-- The Continental Club calendar parser (main.js lines 262-597) as its
chain of stages: the API stage (error covers a thrown fetch, a non-200
response and a missing payload shape), then the secondary calendar
view, then the evaluate scans; the returned tag names the stage that
produced the result. -/
def continentalClubAustin
    (apiOutcome : Except Unit (List (JStr × List CCApiItem)))
    (timelyOutcome : Except Unit (List CCTNode)) (input : CCEvalInput)
    (venueId sourceUrl : Option JStr) (hasCrawler : Bool) :
    Nat × List ParseRequest × List RawEvent :=
  match apiOutcome with
  | .error _ => ccStage2 timelyOutcome input venueId sourceUrl hasCrawler
  | .ok items =>
    let rows := ccApiRows sourceUrl items
    if rows ≠ [] then
      let reqs := if hasCrawler then ccApiDetailReqs venueId items else []
      if hasCrawler && reqs ≠ [] then (1, reqs, [])
      else (1, [], rows)
    else ccStage2 timelyOutcome input venueId sourceUrl hasCrawler

/-- Concrete secondary-view node: an act on October 10 at 7:00pm. -/
def c1NodeEarly : CCTNode :=
  CCTNode.mk true (js "The Early Band") (some (js "7:00pm"))
    (js "Saturday, October 10, 2026") none

/-- Concrete secondary-view node: an act on the same date at 9:30pm. -/
def c1NodeLate : CCTNode :=
  CCTNode.mk true (js "The Late Band") (some (js "9:30pm"))
    (js "Saturday, October 10, 2026") none

/-- A raw event whose headliner cleans to the empty string. -/
def commaEvent : RawEvent :=
  RawEvent.mk (some (js ",")) [] none none none none

/-- The heading-split scenario event of the specification. -/
def satsangEvent : RawEvent :=
  RawEvent.mk (some (js "Satsang w/ Tim Snider")) [] none none none none

/-- A raw event with a non-null but empty headliner. -/
def emptyHeadEvent : RawEvent :=
  RawEvent.mk (some []) [] none none none none

/-- A raw event with two supporting acts differing only in case. -/
def caseSupportsEvent : RawEvent :=
  RawEvent.mk (some (js "X")) [js "Foo", js "FOO"] none none none none

/-- A minimal event for witness instantiations. -/
def plainEvent : RawEvent :=
  RawEvent.mk (some (js "Alpha")) [js "Beta"] none none none none

/-- Concrete rows for the dedup witness. -/
def wRowA : NormRow := NormRow.mk "headliner" (js "Same  Artist") none

/-- A row colliding with the first under the dedup key. -/
def wRowB : NormRow := NormRow.mk "support" (js "same artist") none

/-- A concrete anchor for the calendar-parser witness. -/
def wAnchor : Anchor :=
  Anchor.mk (js "Great Show") (some (js "/events/great-show/"))
    (js "https://example.com/events/great-show/")

/-
Theorems.  General lemmas first, then one theorem per claim (with its
counterexample and witness where the claim needs them).
-/

/-- The head of a dropWhile result does not satisfy the predicate. -/
theorem headDropWhileNot {α : Type} (p : α → Bool) (l : List α) (c : α)
    (h : (l.dropWhile p).head? = some c) : p c = false := by
  induction l with
  | nil => simp [List.dropWhile] at h
  | cons a t ih =>
    rw [List.dropWhile_cons] at h
    cases hp : p a
    · rw [if_neg (by simp [hp])] at h
      simp only [List.head?_cons, Option.some.injEq] at h
      subst h; exact hp
    · rw [if_pos (by simp [hp])] at h
      exact ih h

/-- A nonempty dropWhile result keeps the last element of the list. -/
theorem getLastDropWhileEq {α : Type} (p : α → Bool) (l : List α)
    (h : l.dropWhile p ≠ []) :
    (l.dropWhile p).getLast? = l.getLast? := by
  induction l with
  | nil => simp [List.dropWhile] at h
  | cons a t ih =>
    rw [List.dropWhile_cons] at h ⊢
    cases hp : p a
    · rw [if_neg (by simp [hp])]
    · rw [if_pos (by simp [hp])] at h ⊢
      have ht : t ≠ [] := by
        intro he; subst he; simp [List.dropWhile] at h
      rw [ih h]
      cases t with
      | nil => exact absurd rfl ht
      | cons b t2 => simp [List.getLast?_cons_cons]

/-- The head of the edge-strip result is not in the stripped class. -/
theorem stripEdgeHeadNot (l : JStr) (c : Char)
    (h : (stripEdgePunct l).head? = some c) : isEdgePunct c = false := by
  unfold stripEdgePunct at h
  rw [List.head?_reverse] at h
  have hne : (List.dropWhile isEdgePunct
      (List.dropWhile isEdgePunct l).reverse) ≠ [] := by
    intro he; rw [he] at h; simp at h
  rw [getLastDropWhileEq _ _ hne, List.getLast?_reverse] at h
  exact headDropWhileNot _ _ _ h

/-- The last element of the edge-strip result is not in the stripped
class. -/
theorem stripEdgeLastNot (l : JStr) (c : Char)
    (h : (stripEdgePunct l).getLast? = some c) : isEdgePunct c = false := by
  unfold stripEdgePunct at h
  rw [List.getLast?_reverse] at h
  exact headDropWhileNot _ _ _ h

/-- Whitespace is part of the stripped edge class. -/
theorem edgePunctOfWs (c : Char) (h : isJsWs c = true) :
    isEdgePunct c = true := by
  unfold isEdgePunct; rw [h]; simp

/-- A successful clean is never empty. -/
theorem cleanArtistSomeNe (s v : JStr) (h : cleanArtistS s = some v) :
    v ≠ [] := by
  unfold cleanArtistS at h
  by_cases hs : s = []
  · rw [if_pos hs] at h; exact absurd h (by simp)
  · rw [if_neg hs] at h
    by_cases hp : cleanPipeline s = []
    · rw [if_pos hp] at h; exact absurd h (by simp)
    · rw [if_neg hp] at h
      have hv : cleanPipeline s = v := by
        injection h
      exact hv ▸ hp

/-- The clean-or-fallback value of a nonempty string is nonempty. -/
theorem cleanOrNe (s : JStr) (hs : s ≠ []) : cleanOr s ≠ [] := by
  unfold cleanOr
  cases h : cleanArtistS s with
  | none => exact hs
  | some v => exact cleanArtistSomeNe s v h

/-- The or-else of a nonempty fallback is nonempty. -/
theorem jsOrSNe (a : Option JStr) (b : JStr) (hb : b ≠ []) :
    jsOrS a b ≠ [] := by
  cases a with
  | none => exact hb
  | some s =>
    by_cases h : s = []
    · simp [jsOrS, h]; exact hb
    · simp [jsOrS, h]

/-- A truthy optional string has a nonempty value. -/
theorem optValNe (o : Option JStr) (h : jsTruthy o = true) : optVal o ≠ [] := by
  cases o with
  | none => simp [jsTruthy] at h
  | some s => simpa [jsTruthy, optVal] using h

/-- Claim C3: the idempotence half of the claim fails on the code — the
at-sign time stripper deletes only the first fragment, so a second
application of clean removes a second fragment and changes the result
(clean of a-at-1-at-2 is a-at-2, clean of that is a). -/
theorem claimC3Counterexample :
    cleanArtistS (js "a @1 @2") = some (js "a @2") ∧
    cleanArtistS (js "a @2") = some (js "a") ∧ js "a @2" ≠ js "a" := by
  decide

/-- Claim C3 (amended): clean returns null exactly when the cleaning
pipeline leaves the empty string, and a returned string is nonempty
with no leading or trailing whitespace; the idempotence clause of the
claim is dropped (the counterexample shows a second application can
strip a further time fragment). -/
theorem claimC3Amended : ∀ l : JStr,
    (cleanArtistS l = none ↔ cleanPipeline l = []) ∧
    (∀ v, cleanArtistS l = some v →
      v = cleanPipeline l ∧ v ≠ [] ∧
      (∀ c, v.head? = some c → isJsWs c = false) ∧
      (∀ c, v.getLast? = some c → isJsWs c = false)) := by
  intro l
  constructor
  · unfold cleanArtistS
    by_cases hl : l = []
    · rw [if_pos hl]
      subst hl
      simp only [true_iff]
      decide
    · rw [if_neg hl]
      by_cases hp : cleanPipeline l = []
      · rw [if_pos hp]; simp [hp]
      · rw [if_neg hp]; simp [hp]
  · intro v hv
    unfold cleanArtistS at hv
    by_cases hl : l = []
    · rw [if_pos hl] at hv; exact absurd hv (by simp)
    · rw [if_neg hl] at hv
      by_cases hp : cleanPipeline l = []
      · rw [if_pos hp] at hv; exact absurd hv (by simp)
      · rw [if_neg hp] at hv
        have he : cleanPipeline l = v := by injection hv
        subst he
        refine ⟨rfl, hp, ?_, ?_⟩
        · intro c hc
          have h1 : isEdgePunct c = false := by
            have : cleanPipeline l = stripEdgePunct (jsTrim (collapseWs
                (mapCurly (stripTour (stripParens (stripDashEnd (stripAtWord
                  (stripAtSign (stripPresents l))))))))) := rfl
            rw [this] at hc
            exact stripEdgeHeadNot _ _ hc
          cases habs : isJsWs c with
          | false => rfl
          | true =>
            rw [edgePunctOfWs c habs] at h1
            exact absurd h1 (by decide)
        · intro c hc
          have h1 : isEdgePunct c = false := by
            have : cleanPipeline l = stripEdgePunct (jsTrim (collapseWs
                (mapCurly (stripTour (stripParens (stripDashEnd (stripAtWord
                  (stripAtSign (stripPresents l))))))))) := rfl
            rw [this] at hc
            exact stripEdgeLastNot _ _ hc
          cases habs : isJsWs c with
          | false => rfl
          | true =>
            rw [edgePunctOfWs c habs] at h1
            exact absurd h1 (by decide)

/-- Claim C3 witness: the amended theorem applied to a concrete string
that cleans to itself. -/
theorem claimC3Witness :
    js "xy" = cleanPipeline (js "xy") ∧ js "xy" ≠ [] ∧
    (∀ c, (js "xy").head? = some c → isJsWs c = false) ∧
    (∀ c, (js "xy").getLast? = some c → isJsWs c = false) :=
  (claimC3Amended (js "xy")).2 (js "xy") (by decide)

/-- Claim C2: the claim fails on the code — an event whose headliner
cleans to the empty string (here a lone comma) is not dropped: the
normalizer falls back to the raw name and emits the row. -/
theorem claimC2Counterexample :
    recordNormalize commaEvent = [NormRow.mk "headliner" (js ",") none] ∧
    cleanArtistS (js ",") = none := by
  decide

/-- Claim C2 (amended): every normalized row carries a nonempty
artistName; a name that cleans to empty falls back to the raw
(pre-clean) name instead of the row being dropped. -/
theorem claimC2Amended : ∀ (item : RawEvent) (r : NormRow),
    r ∈ recordNormalize item → r.artistName ≠ [] := by
  intro item r hr
  unfold recordNormalize at hr
  by_cases h1 : jsTruthy item.headliner
  · rw [if_pos h1] at hr
    simp only [List.mem_cons, List.mem_map, List.mem_filter,
      decide_eq_true_eq] at hr
    rcases hr with hr | ⟨n, ⟨_, hn⟩, hrw⟩
    · subst hr
      exact cleanOrNe _ (jsOrSNe _ _ (optValNe _ h1))
    · rw [← hrw]
      exact hn
  · rw [if_neg h1] at hr
    by_cases h2 : jsTruthy item.artistName
    · rw [if_pos h2] at hr
      simp only [List.mem_singleton] at hr
      subst hr
      exact cleanOrNe _ (optValNe _ h2)
    · rw [if_neg h2] at hr
      exact absurd hr (List.not_mem_nil r)

/-- Claim C2 witness: the amended theorem at a concrete event and its
headliner row. -/
theorem claimC2Witness : (NormRow.mk "headliner" (js "Alpha") none).artistName ≠ [] :=
  claimC2Amended plainEvent (NormRow.mk "headliner" (js "Alpha") none)
    (by decide)

/-- Claim C8: the claim fails on the code — a raw event whose headliner
is non-null but empty is truthiness-rejected and yields no rows at all,
in particular no headliner row. -/
theorem claimC8Counterexample :
    recordNormalize emptyHeadEvent = [] ∧ emptyHeadEvent.headliner ≠ none := by
  decide

/-- Claim C8 (amended): every raw event whose headliner is non-null and
nonempty yields at least one row with role headliner. -/
theorem claimC8Amended : ∀ item : RawEvent, jsTruthy item.headliner = true →
    ∃ r ∈ recordNormalize item, r.role = "headliner" := by
  intro item h1
  refine ⟨NormRow.mk "headliner"
    (cleanOr (jsOrS (splitParts (headlinerStr item)).head? (headlinerStr item)))
    item.eventDateRaw, ?_, rfl⟩
  unfold recordNormalize
  rw [if_pos h1]
  exact List.mem_cons_self _ _

/-- Claim C8 witness: the amended theorem at a concrete event. -/
theorem claimC8Witness : ∃ r ∈ recordNormalize plainEvent, r.role = "headliner" :=
  claimC8Amended plainEvent (by decide)

/-- Claim C9: the claim fails on the code — two supporting acts
differing only in case are both emitted by the normalizer, whose
per-event Set deduplicates by exact (case-sensitive) match. -/
theorem claimC9Counterexample :
    (recordNormalize caseSupportsEvent).map (fun r => (r.role, r.artistName)) =
      [("headliner", js "X"), ("support", js "Foo"), ("support", js "FOO")] ∧
    lower (js "FOO") = lower (js "Foo") := by
  decide

/-- Claim C4: the claim fails on the code — normalizing a raw event
whose headliner is the compound string Satsang w-slash Tim Snider does
not produce headliner Satsang: the splitter treats the slash of the
w-slash marker as a delimiter, leaving the w on the first part. -/
theorem claimC4Counterexample :
    ¬ ((recordNormalize satsangEvent).map (fun r => (r.role, r.artistName)) =
      [("headliner", js "Satsang"), ("support", js "Tim Snider")]) := by
  decide

/-- Claim C4 (amended): that event normalizes to headliner Satsang w
and supporting act Tim Snider (the full split to Satsang happens only
in the Parish and Empire detail parsers, which match the w-slash
pattern on the heading before the record normalizer runs). -/
theorem claimC4Amended :
    (recordNormalize satsangEvent).map (fun r => (r.role, r.artistName)) =
      [("headliner", js "Satsang w"), ("support", js "Tim Snider")] := by
  decide

/-- Claim C1: the role-by-time assignment the specification describes is
absent from the code.  On two events sharing the date key, times 7:00pm
and 9:30pm, the secondary-view emission returns both acts as separate
events, each carrying itself as headliner with no supporting acts, and
the record normalizer therefore assigns role headliner to both — the
earlier act is never assigned role support.  The sort and the binding
of the latest-starting act exist in the source (main.js lines 411-416)
but the binding is dead. -/
theorem claimC1CodeBug :
    (ccStage2RowsOut none none [c1NodeEarly, c1NodeLate]).map RawEvent.headliner =
      [some (js "The Early Band"), some (js "The Late Band")] ∧
    (ccStage2RowsOut none none [c1NodeEarly, c1NodeLate]).map
      RawEvent.supportingActs = [[], []] ∧
    ((ccStage2RowsOut none none [c1NodeEarly, c1NodeLate]).flatMap
      recordNormalize).map (fun r => (r.role, r.artistName)) =
      [("headliner", js "The Early Band"), ("headliner", js "The Late Band")] ∧
    parseTimeToMinutes (some (js "7:00pm")) = some 1140 ∧
    parseTimeToMinutes (some (js "9:30pm")) = some 1290 := by
  decide

/-- No key of a dedup result is in the seen set it started from. -/
theorem dedupeGoNotSeen : ∀ (rows : List NormRow) (seen : List JStr)
    (r : NormRow), r ∈ dedupeGo seen rows → dedupeKey r ∉ seen := by
  intro rows
  induction rows with
  | nil => intro seen r h; simp [dedupeGo] at h
  | cons a rs ih =>
    intro seen r h
    unfold dedupeGo at h
    by_cases hc : dedupeKey a ∈ seen
    · rw [if_pos hc] at h
      exact ih seen r h
    · rw [if_neg hc] at h
      rcases List.mem_cons.mp h with h1 | h2
      · subst h1; exact hc
      · intro hk
        exact ih _ r h2 (List.mem_cons_of_mem _ hk)

/-- The dedup result has pairwise distinct keys. -/
theorem dedupeGoPairwise : ∀ (rows : List NormRow) (seen : List JStr),
    (dedupeGo seen rows).Pairwise (fun x y => dedupeKey x ≠ dedupeKey y) := by
  intro rows
  induction rows with
  | nil => intro seen; simp [dedupeGo]
  | cons a rs ih =>
    intro seen
    unfold dedupeGo
    by_cases hc : dedupeKey a ∈ seen
    · rw [if_pos hc]; exact ih seen
    · rw [if_neg hc]
      refine List.Pairwise.cons ?_ (ih _)
      intro y hy he
      exact dedupeGoNotSeen rs _ y hy (he ▸ List.mem_cons_self _ _)

/-- Every retained row is the first row of the input bearing its key. -/
theorem dedupeGoFirstOcc : ∀ (rows : List NormRow) (seen : List JStr)
    (r : NormRow), r ∈ dedupeGo seen rows →
    rows.find? (fun x => decide (dedupeKey x = dedupeKey r)) = some r := by
  intro rows
  induction rows with
  | nil => intro seen r h; simp [dedupeGo] at h
  | cons a rs ih =>
    intro seen r h
    unfold dedupeGo at h
    by_cases hc : dedupeKey a ∈ seen
    · rw [if_pos hc] at h
      have hne : ¬ (dedupeKey a = dedupeKey r) := by
        intro he
        exact dedupeGoNotSeen rs seen r h (he ▸ hc)
      rw [List.find?_cons]
      rw [decide_eq_false hne]
      exact ih seen r h
    · rw [if_neg hc] at h
      rcases List.mem_cons.mp h with h1 | h2
      · subst h1
        rw [List.find?_cons, decide_eq_true rfl]
      · have hne : ¬ (dedupeKey a = dedupeKey r) := by
          intro he
          exact dedupeGoNotSeen rs _ r h2 (he ▸ List.mem_cons_self _ _)
        rw [List.find?_cons, decide_eq_false hne]
        exact ih _ r h2

/-- Claim C5: batch deduplication emits at most one row per distinct
lower-cased whitespace-collapsed artistName, and each retained row is
the first row of the batch bearing its key. -/
theorem claimC5 : ∀ rows : List NormRow,
    (dedupeRows rows).Pairwise (fun x y => dedupeKey x ≠ dedupeKey y) ∧
    ∀ r ∈ dedupeRows rows,
      rows.find? (fun x => decide (dedupeKey x = dedupeKey r)) = some r :=
  fun rows =>
    ⟨dedupeGoPairwise rows [], fun r hr => dedupeGoFirstOcc rows [] r hr⟩

/-- Claim C5 witness: the theorem applied to a concrete batch with a
key collision under case and whitespace folding. -/
theorem claimC5Witness :
    [wRowA, wRowB].find?
      (fun x => decide (dedupeKey x = dedupeKey wRowA)) = some wRowA :=
  (claimC5 [wRowA, wRowB]).2 wRowA (by decide)

/-- Unrolling of the Set-insertion fold by one element. -/
theorem setAddAllCons (acc : List JStr) (x : JStr) (xs : List JStr) :
    setAddAll acc (x :: xs) = setAddAll (setAdd acc x) xs := rfl

/-- The Set-insertion fold equals the reference first-occurrence
deduplication of the input, restricted to values not already
present. -/
theorem setAddAllEq : ∀ (xs acc : List JStr),
    setAddAll acc xs =
      acc ++ (dedupFirst xs).filter (fun y => decide (y ∉ acc)) := by
  intro xs
  induction xs with
  | nil => intro acc; simp [setAddAll, dedupFirst]
  | cons x rest ih =>
    intro acc
    rw [setAddAllCons]
    by_cases hc : x ∈ acc
    · have h1 : setAdd acc x = acc := by simp [setAdd, hc]
      rw [h1, ih acc]
      have h2 : dedupFirst (x :: rest) =
          x :: (dedupFirst rest).filter (fun y => decide (y ≠ x)) := rfl
      rw [h2, List.filter_cons]
      rw [decide_eq_false (by simp [hc] : ¬ x ∉ acc)]
      rw [List.filter_filter]
      congr 1
      apply List.filter_congr
      intro y _
      by_cases hy : y = x
      · subst hy
        simp [hc]
      · simp [hy]
    · have h1 : setAdd acc x = acc ++ [x] := by simp [setAdd, hc]
      rw [h1, ih (acc ++ [x])]
      have h2 : dedupFirst (x :: rest) =
          x :: (dedupFirst rest).filter (fun y => decide (y ≠ x)) := rfl
      rw [h2, List.filter_cons]
      rw [decide_eq_true (by simp [hc] : x ∉ acc)]
      rw [if_pos rfl]
      rw [List.filter_filter, List.append_assoc]
      simp only [List.singleton_append]
      congr 2
      apply List.filter_congr
      intro y _
      by_cases hy : y = x
      · subst hy
        simp
      · simp [hy, List.mem_append]

/-- The Set-insertion fold from the empty set is exactly the reference
first-occurrence deduplication. -/
theorem setAddAllNil (xs : List JStr) : setAddAll [] xs = dedupFirst xs := by
  rw [setAddAllEq]
  simp

/-- The fold distributes over the two source loops. -/
theorem setAddAllAppend (acc : List JStr) (a b : List JStr) :
    setAddAll (setAddAll acc a) b = setAddAll acc (a ++ b) := by
  unfold setAddAll
  rw [List.foldl_append]

/-- Claim C9 (amended): within one raw event the support rows come in
insertion order — supportingActs entries first, then the extra parts of
the compound headliner — with duplicates removed by exact
(case-sensitive) match; the case-insensitive removal the claim states
happens only later, in the batch-level dedup stage. -/
theorem claimC9Amended : ∀ item : RawEvent, jsTruthy item.headliner = true →
    ((recordNormalize item).drop 1).map NormRow.artistName =
      (dedupFirst (((item.supportingActs.filter (fun s => s ≠ [])).map cleanOr)
        ++ ((splitParts (headlinerStr item)).drop 1).map cleanOr)).filter
        (fun n => n ≠ []) := by
  intro item h1
  unfold recordNormalize
  rw [if_pos h1]
  simp only [List.drop_succ_cons, List.drop_zero]
  rw [List.map_map]
  rw [setAddAllAppend, setAddAllNil]
  have h2 : (NormRow.artistName ∘ fun n => NormRow.mk "support" n item.eventDateRaw)
      = fun n => n := rfl
  rw [h2]
  simp

/-- Claim C9 witness: the amended theorem at a concrete event. -/
theorem claimC9Witness :
    ((recordNormalize plainEvent).drop 1).map NormRow.artistName =
      (dedupFirst (((plainEvent.supportingActs.filter (fun s => s ≠ [])).map
        cleanOr) ++ ((splitParts (headlinerStr plainEvent)).drop 1).map
        cleanOr)).filter (fun n => n ≠ []) :=
  claimC9Amended plainEvent (by decide)

/-- Every extracted Parish or Empire link title is nonempty. -/
theorem extractLinksTitleNe : ∀ (anchors : List Anchor)
    (seen : List (JStr × JStr)), ∀ li ∈ extractLinksGo seen anchors,
    li.title ≠ [] := by
  intro anchors
  induction anchors with
  | nil => intro seen li h; simp [extractLinksGo] at h
  | cons a rest ih =>
    intro seen li h
    unfold extractLinksGo at h
    by_cases hk : linkKeep (jsTrim a.textContent) a.href
    · rw [if_pos hk] at h
      by_cases hs : (a.url, jsTrim a.textContent) ∈ seen
      · rw [if_pos hs] at h
        exact ih seen li h
      · rw [if_neg hs] at h
        rcases List.mem_cons.mp h with h1 | h2
        · subst h1
          unfold linkKeep at hk
          intro he
          have he2 : jsTrim a.textContent = [] := he
          rw [he2] at hk
          simp at hk
        · exact ih _ li h2
    · rw [if_neg hk] at h
      exact ih seen li h

/-- Every extracted Stubbs link title is nonempty. -/
theorem extractStubbsTitleNe : ∀ (anchors : List Anchor)
    (seen : List (JStr × JStr)), ∀ li ∈ extractStubbsGo seen anchors,
    li.title ≠ [] := by
  intro anchors
  induction anchors with
  | nil => intro seen li h; simp [extractStubbsGo] at h
  | cons a rest ih =>
    intro seen li h
    unfold extractStubbsGo at h
    by_cases hk : jsTrim a.textContent ≠ [] ∧ a.url ≠ []
    · rw [if_pos (by simpa using hk)] at h
      by_cases hs : (a.url, jsTrim a.textContent) ∈ seen
      · rw [if_pos hs] at h
        exact ih seen li h
      · rw [if_neg hs] at h
        rcases List.mem_cons.mp h with h1 | h2
        · subst h1
          exact hk.1
        · exact ih _ li h2
    · rw [if_neg (by simpa using hk)] at h
      exact ih seen li h

/-- Claim C6: each two-phase calendar parser, given at least one
extracted detail link, enqueues one request per link and returns no
events under a crawl context, and with no crawl context returns one
summary event per link carrying the link title as headliner and a null
date. -/
theorem claimC6 : ∀ (anchors : List Anchor) (venueId : Option JStr),
    (extractEventLinks anchors ≠ [] →
      (parishAustin anchors venueId true).1.length =
          (extractEventLinks anchors).length ∧
      (parishAustin anchors venueId true).2 = [] ∧
      parishAustin anchors venueId false =
        ([], (extractEventLinks anchors).map (fun ev =>
          RawEvent.mk (some ev.title) [] none (some ev.url) none none)) ∧
      (empireAtAustin anchors venueId true).1.length =
          (extractEventLinks anchors).length ∧
      (empireAtAustin anchors venueId true).2 = [] ∧
      empireAtAustin anchors venueId false =
        ([], (extractEventLinks anchors).map (fun ev =>
          RawEvent.mk (some ev.title) [] none (some ev.url) none none))) ∧
    (extractStubbsLinks anchors ≠ [] →
      (stubbsAustin anchors venueId true).1.length =
          (extractStubbsLinks anchors).length ∧
      (stubbsAustin anchors venueId true).2 = [] ∧
      stubbsAustin anchors venueId false =
        ([], (extractStubbsLinks anchors).map (fun ev =>
          RawEvent.mk (some ev.title) [] none (some ev.url) none none))) := by
  intro anchors venueId
  constructor
  · intro h
    have hlen : 0 < (extractEventLinks anchors).length :=
      List.length_pos.mpr h
    refine ⟨?_, ?_, ?_, ?_, ?_, ?_⟩
    · unfold parishAustin
      rw [if_neg h, if_pos (by simp [List.length_map, hlen])]
      simp [List.length_map]
    · unfold parishAustin
      rw [if_neg h, if_pos (by simp [List.length_map, hlen])]
    · unfold parishAustin
      rw [if_neg h, if_neg (by simp)]
    · unfold empireAtAustin
      rw [if_neg h, if_pos (by simp [List.length_map, hlen])]
      simp [List.length_map]
    · unfold empireAtAustin
      rw [if_neg h, if_pos (by simp [List.length_map, hlen])]
    · unfold empireAtAustin
      rw [if_neg h, if_neg (by simp)]
  · intro h
    have hlen : 0 < (extractStubbsLinks anchors).length :=
      List.length_pos.mpr h
    refine ⟨?_, ?_, ?_⟩
    · unfold stubbsAustin
      rw [if_neg h, if_pos (by simp [List.length_map, hlen])]
      simp [List.length_map]
    · unfold stubbsAustin
      rw [if_neg h, if_pos (by simp [List.length_map, hlen])]
    · unfold stubbsAustin
      rw [if_neg h, if_neg (by simp)]
      refine congrArg (Prod.mk []) ?_
      apply List.map_congr_left
      intro ev hev
      rw [if_neg (extractStubbsTitleNe anchors [] ev hev)]

/-- Claim C6 witness: the theorem at a single concrete anchor, both
conjuncts instantiated. -/
theorem claimC6Witness :
    (parishAustin [wAnchor] none true).1.length =
        (extractEventLinks [wAnchor]).length ∧
    (parishAustin [wAnchor] none true).2 = [] :=
  ⟨((claimC6 [wAnchor] none).1 (by decide)).1,
   ((claimC6 [wAnchor] none).1 (by decide)).2.1⟩

/-- Claim C10: every detail-page parser returns exactly one raw event
on every invocation, whatever the page text, headings, continuation
fields or timely flag — the single returned event may have a null
headliner, but the sequence always has length one. -/
theorem claimC10 : ∀ (allLines eventLines lines : List JStr)
    (headingTitle headingText titleText calendarTitle calendarDateText
      sourceUrl : Option JStr) (isTimely : Bool),
    (comeAndTakeItEvent allLines headingTitle sourceUrl).length = 1 ∧
    (continentalClubEvent headingTitle allLines isTimely calendarDateText
      calendarTitle sourceUrl).length = 1 ∧
    (parishAustinEvent eventLines headingText calendarTitle sourceUrl).length
      = 1 ∧
    (empireAtAustinEvent eventLines headingText calendarTitle sourceUrl).length
      = 1 ∧
    (stubbsAustinEvent lines titleText calendarDateText calendarTitle
      sourceUrl).length = 1 :=
  fun _ _ _ _ _ _ _ _ _ _ => ⟨rfl, rfl, rfl, rfl, rfl⟩

/-- The stage-three result always carries the evaluate-stage tag. -/
theorem ccStage3Tag (input : CCEvalInput) (venueId sourceUrl : Option JStr)
    (hasCrawler : Bool) :
    (ccStage3 input venueId sourceUrl hasCrawler).1 = ccEvalStageTag input := by
  unfold ccStage3
  dsimp only
  split
  · split
    · rfl
    · rfl
  · rfl

/-- The evaluate-stage tag lies between 3 and 5. -/
theorem ccEvalTagRange (input : CCEvalInput) :
    3 ≤ ccEvalStageTag input ∧ ccEvalStageTag input ≤ 5 := by
  unfold ccEvalStageTag
  split
  · omega
  · split
    · omega
    · omega

/-- A tag of at least 4 means the timely scan had no nodes (hence
yielded no rows). -/
theorem ccEvalTag4 (input : CCEvalInput) (h : 4 ≤ ccEvalStageTag input) :
    input.timelyNodes = [] := by
  unfold ccEvalStageTag at h
  by_cases h1 : input.timelyNodes ≠ []
  · rw [if_pos h1] at h; omega
  · simpa using h1

/-- A tag of 5 means the candidate scan had no nodes either. -/
theorem ccEvalTag5 (input : CCEvalInput) (h : 5 ≤ ccEvalStageTag input) :
    input.candNodes = [] := by
  unfold ccEvalStageTag at h
  by_cases h1 : input.timelyNodes ≠ []
  · rw [if_pos h1] at h; omega
  · rw [if_neg h1] at h
    by_cases h2 : input.candNodes ≠ []
    · rw [if_pos h2] at h; omega
    · simpa using h2

/-- Stage-two dispatch: the tag is between 2 and 5; reaching past stage
two requires the secondary view to have failed or produced no rows, and
the stage-three facts carry over. -/
theorem ccStage2Spec (t : Except Unit (List CCTNode)) (input : CCEvalInput)
    (venueId sourceUrl : Option JStr) (hasCrawler : Bool) :
    2 ≤ (ccStage2 t input venueId sourceUrl hasCrawler).1 ∧
    (ccStage2 t input venueId sourceUrl hasCrawler).1 ≤ 5 ∧
    (3 ≤ (ccStage2 t input venueId sourceUrl hasCrawler).1 →
      t = Except.error () ∨ ∃ nodes, t = Except.ok nodes ∧
        ccSecondaryOutEvents (some ccTimelyUrl) nodes = []) ∧
    (4 ≤ (ccStage2 t input venueId sourceUrl hasCrawler).1 →
      input.timelyNodes = []) ∧
    (5 ≤ (ccStage2 t input venueId sourceUrl hasCrawler).1 →
      input.candNodes = []) := by
  have htag := ccStage3Tag input venueId sourceUrl hasCrawler
  have hr := ccEvalTagRange input
  cases t with
  | error u =>
    cases u
    unfold ccStage2
    rw [htag]
    refine ⟨by omega, hr.2, fun _ => Or.inl rfl, ?_, ?_⟩
    · intro h4; exact ccEvalTag4 input h4
    · intro h5; exact ccEvalTag5 input h5
  | ok nodes =>
    unfold ccStage2
    dsimp only
    by_cases hrows : ccSecondaryOutEvents (some ccTimelyUrl) nodes ≠ []
    · rw [if_pos (by simpa using hrows)]
      refine ⟨by omega, by omega, ?_, ?_, ?_⟩ <;> intro hk <;> omega
    · rw [if_neg (by simpa using hrows)]
      rw [htag]
      refine ⟨by omega, hr.2, ?_, ?_, ?_⟩
      · intro _
        exact Or.inr ⟨nodes, rfl, by simpa using hrows⟩
      · intro h4; exact ccEvalTag4 input h4
      · intro h5; exact ccEvalTag5 input h5

/-- Claim C7: in the structured-data chains every later stage is reached
only when each earlier stage failed or yielded zero rows, and every
failure is absorbed — the chain functions are total and always land in
one of the stages.  For the Emo and Scoot Inn parser the DOM-card scan
runs exactly when the JSON-LD stage produced no rows (malformed scripts
are skipped inside it); for the Continental Club parser the stage tag
bounds show the result always comes from one of the five stages, and
each implication states that the earlier stages yielded nothing. -/
theorem claimC7 :
    (∀ (scripts : List (Except Unit Json)) (cards : List EmosCard),
      ((emosLdState scripts).rows ≠ [] →
        emosEvaluate scripts cards = (emosLdState scripts).rows) ∧
      ((emosLdState scripts).rows = [] →
        emosEvaluate scripts cards =
          (emosDomScan (emosLdState scripts) cards).rows)) ∧
    (∀ (api : Except Unit (List (JStr × List CCApiItem)))
      (timely : Except Unit (List CCTNode)) (input : CCEvalInput)
      (venueId sourceUrl : Option JStr) (hasCrawler : Bool),
      1 ≤ (continentalClubAustin api timely input venueId sourceUrl
        hasCrawler).1 ∧
      (continentalClubAustin api timely input venueId sourceUrl hasCrawler).1
        ≤ 5 ∧
      (2 ≤ (continentalClubAustin api timely input venueId sourceUrl
          hasCrawler).1 →
        api = Except.error () ∨ ∃ items, api = Except.ok items ∧
          ccApiRows sourceUrl items = []) ∧
      (3 ≤ (continentalClubAustin api timely input venueId sourceUrl
          hasCrawler).1 →
        timely = Except.error () ∨ ∃ nodes, timely = Except.ok nodes ∧
          ccSecondaryOutEvents (some ccTimelyUrl) nodes = []) ∧
      (4 ≤ (continentalClubAustin api timely input venueId sourceUrl
          hasCrawler).1 → input.timelyNodes = []) ∧
      (5 ≤ (continentalClubAustin api timely input venueId sourceUrl
          hasCrawler).1 → input.candNodes = [])) := by
  constructor
  · intro scripts cards
    constructor
    · intro h
      unfold emosEvaluate
      rw [if_neg h]
    · intro h
      unfold emosEvaluate
      rw [if_pos h]
  · intro api timely input venueId sourceUrl hasCrawler
    cases api with
    | error u =>
      cases u
      have hs := ccStage2Spec timely input venueId sourceUrl hasCrawler
      unfold continentalClubAustin
      dsimp only
      refine ⟨by omega, hs.2.1, fun _ => Or.inl rfl, hs.2.2.1, hs.2.2.2.1,
        hs.2.2.2.2⟩
    | ok items =>
      unfold continentalClubAustin
      dsimp only
      by_cases hrows : ccApiRows sourceUrl items ≠ []
      · rw [if_pos (by simpa using hrows)]
        split <;> split <;>
          refine ⟨?_, ?_, fun hk => ?_, fun hk => ?_, fun hk => ?_,
            fun hk => ?_⟩ <;> simp_all
      · rw [if_neg (by simpa using hrows)]
        have hs := ccStage2Spec timely input venueId sourceUrl hasCrawler
        refine ⟨by omega, hs.2.1, ?_, hs.2.2.1, hs.2.2.2.1, hs.2.2.2.2⟩
        intro _
        exact Or.inr ⟨items, rfl, by simpa using hrows⟩

/-- Claim C7 witness: the chain at concrete inputs — an empty JSON-LD
stage falls through to the DOM scan. -/
theorem claimC7Witness :
    emosEvaluate [] [EmosCard.mk (js "Band") none none] =
      (emosDomScan (emosLdState []) [EmosCard.mk (js "Band") none none]).rows :=
  ((claimC7.1 [] [EmosCard.mk (js "Band") none none]).2 (by decide))

end VenueCrawler
